import Mathlib

/-!
Verification of the cache layer of the Social-V2 backend (`cache.py`) and of the
hand-rolled cache keys of the analytics endpoints (`main.py`).

The development is a shallow embedding of the Python source:

* Python values that flow through the cache (`json.dumps` / `json.loads` with
  `default=str`) are modelled by the inductive type `JVal`; the Python `None`
  object and the JSON value `null` are the same value, `JVal.null`.
* `json.dumps` (with its `sort_keys` flag and `default=str`, with the default
  `ensure_ascii=True`) is modelled by `jsonDumps`; `json.loads` by `jsonLoads`
  (floats are outside the modelled value domain — no cached value contains one).
* `hashlib.sha256(...).hexdigest()` is modelled by a full executable SHA-256.
* The module-level mutable globals (`_redis_pool`, `_last_failed`) together
  with the contents of the remote Redis store form the explicit state
  `CacheState`, threaded through every operation.  `time.time()` is passed in
  as the explicit argument `now` (an `Int`, seconds).
* Whether each interaction with the remote store raises is controlled by the
  environment `StoreEnv`; a raised exception is an `Except.error` which the
  embedded operations catch exactly where the Python `try/except` blocks do.
* `CacheState.connectAttempts`, `CacheState.getCalls` and `CacheState.setCalls`
  are ghost instrumentation counters (they count calls of `aioredis.from_url`,
  `cache_get` and `cache_set`); no control flow depends on them.
-/

set_option maxRecDepth 100000

/-! ## SHA-256 (`hashlib.sha256`), executable, over byte lists -/

def M32 : Nat := 4294967296

def rotr32 (n x : Nat) : Nat := ((x >>> n) ||| (x <<< (32 - n))) % M32

def shaK : List Nat :=
  [1116352408, 1899447441, 3049323471, 3921009573, 961987163, 1508970993,
   2453635748, 2870763221, 3624381080, 310598401, 607225278, 1426881987,
   1925078388, 2162078206, 2614888103, 3248222580, 3835390401, 4022224774,
   264347078, 604807628, 770255983, 1249150122, 1555081692, 1996064986,
   2554220882, 2821834349, 2952996808, 3210313671, 3336571891, 3584528711,
   113926993, 338241895, 666307205, 773529912, 1294757372, 1396182291,
   1695183700, 1986661051, 2177026350, 2456956037, 2730485921, 2820302411,
   3259730800, 3345764771, 3516065817, 3600352804, 4094571909, 275423344,
   430227734, 506948616, 659060556, 883997877, 958139571, 1322822218,
   1537002063, 1747873779, 1955562222, 2024104815, 2227730452, 2361852424,
   2428436474, 2756734187, 3204031479, 3329325298]

def shaH0 : List Nat :=
  [1779033703, 3144134277, 1013904242, 2773480762,
   1359893119, 2600822924, 528734635, 1541459225]

/-- Pad a byte message per SHA-256: append `0x80`, zeros, then the 64-bit
big-endian bit length, to a multiple of 64 bytes. -/
def shaPad (msg : List Nat) : List Nat :=
  let L := msg.length
  let bitLen := 8 * L
  let z := (64 - (L + 9) % 64) % 64
  msg ++ [0x80] ++ List.replicate z 0 ++
    [bitLen / 2^56 % 256, bitLen / 2^48 % 256, bitLen / 2^40 % 256, bitLen / 2^32 % 256,
     bitLen / 2^24 % 256, bitLen / 2^16 % 256, bitLen / 2^8 % 256, bitLen % 256]

/-- Split a (padded) byte list into its 64-byte blocks. -/
def chunks64 (l : List Nat) : List (List Nat) :=
  (List.range (l.length / 64)).map fun i => (l.drop (64*i)).take 64

/-- The 16 big-endian 32-bit words of one 64-byte block. -/
def blockWords (b : List Nat) : List Nat :=
  (List.range 16).map fun i =>
    b.getD (4*i) 0 * 2^24 + b.getD (4*i+1) 0 * 2^16 + b.getD (4*i+2) 0 * 2^8 + b.getD (4*i+3) 0

/-- Extend the 16 block words to the 64-word message schedule. -/
def shaSchedule (ws : List Nat) : List Nat :=
  (List.range 48).foldl (fun ws _ =>
    let n := ws.length
    let w15 := ws.getD (n - 15) 0
    let w2  := ws.getD (n - 2) 0
    let s0 := (rotr32 7 w15) ^^^ (rotr32 18 w15) ^^^ (w15 >>> 3)
    let s1 := (rotr32 17 w2) ^^^ (rotr32 19 w2) ^^^ (w2 >>> 10)
    ws ++ [(ws.getD (n - 16) 0 + s0 + ws.getD (n - 7) 0 + s1) % M32]) ws

/-- One SHA-256 compression round applied to a whole 64-byte block. -/
def shaCompress (h : List Nat) (block : List Nat) : List Nat :=
  let w := shaSchedule (blockWords block)
  let init := (h.getD 0 0, h.getD 1 0, h.getD 2 0, h.getD 3 0,
               h.getD 4 0, h.getD 5 0, h.getD 6 0, h.getD 7 0)
  let fin := (List.range 64).foldl (fun st i =>
    let (a, b, c, d, e, f, g, hh) := st
    let S1 := (rotr32 6 e) ^^^ (rotr32 11 e) ^^^ (rotr32 25 e)
    let ch := (e &&& f) ^^^ ((e ^^^ 4294967295) &&& g)
    let t1 := (hh + S1 + ch + shaK.getD i 0 + w.getD i 0) % M32
    let S0 := (rotr32 2 a) ^^^ (rotr32 13 a) ^^^ (rotr32 22 a)
    let mj := (a &&& b) ^^^ (a &&& c) ^^^ (b &&& c)
    let t2 := (S0 + mj) % M32
    ((t1 + t2) % M32, a, b, c, (d + t1) % M32, e, f, g)) init
  [(h.getD 0 0 + fin.1) % M32, (h.getD 1 0 + fin.2.1) % M32,
   (h.getD 2 0 + fin.2.2.1) % M32, (h.getD 3 0 + fin.2.2.2.1) % M32,
   (h.getD 4 0 + fin.2.2.2.2.1) % M32, (h.getD 5 0 + fin.2.2.2.2.2.1) % M32,
   (h.getD 6 0 + fin.2.2.2.2.2.2.1) % M32, (h.getD 7 0 + fin.2.2.2.2.2.2.2) % M32]

/-- SHA-256 digest of a byte list, as the list of its 32 digest bytes. -/
def sha256Bytes (msg : List Nat) : List Nat :=
  let hs := (chunks64 (shaPad msg)).foldl shaCompress shaH0
  hs.flatMap fun x => [x / 2^24 % 256, x / 2^16 % 256, x / 2^8 % 256, x % 256]

/-- Lowercase hexadecimal digit. -/
def hexDigitChar (n : Nat) : Char :=
  if n < 10 then Char.ofNat (48 + n) else Char.ofNat (87 + n)

/-- Lowercase hex rendering of a byte list (`bytes.hex()` / `hexdigest()`). -/
def bytesToHex (bs : List Nat) : String :=
  String.mk (bs.flatMap fun b => [hexDigitChar (b / 16 % 16), hexDigitChar (b % 16)])

/-- UTF-8 encoding of a string all of whose characters are ASCII (`str.encode()`;
every string hashed by `_make_cache_key` is `ensure_ascii` output, hence ASCII). -/
def strBytes (s : String) : List Nat := s.data.map Char.toNat

/-- The string `hashlib.sha256(s.encode()).hexdigest()`. -/
def sha256hex (s : String) : String := bytesToHex (sha256Bytes (strBytes s))

/-! ## Python values and `json.dumps` -/

/-- Python values that can flow through the cache.  `null` is both the Python
`None` object and the JSON value `null` (they are the same Python object).
`other s` stands for a Python object that `json` cannot serialize natively
(e.g. a `datetime.date`) whose `str()` rendering is `s`; `json.dumps` with
`default=str` emits it as the JSON string `s`.  Floats are outside the
modelled domain — no value cached by this application contains one. -/
inductive JVal where
  | null
  | bool (b : Bool)
  | int (n : Int)
  | str (s : String)
  | arr (elems : List JVal)
  | obj (fields : List (String × JVal))
  | other (s : String)

/-- Python's `v is None` test on a cache value (used by `cache_get` callers). -/
def JVal.isNull : JVal → Bool
  | .null => true
  | _ => false

/-- The four hex digits of `n < 0x10000`, lowercase (a `\uXXXX` escape body). -/
def hex4 (n : Nat) : List Char :=
  [hexDigitChar (n / 4096 % 16), hexDigitChar (n / 256 % 16),
   hexDigitChar (n / 16 % 16), hexDigitChar (n % 16)]

/-- CPython `json` ASCII string-escaping of one character (`ensure_ascii=True`):
short escapes for the seven special characters, printable ASCII verbatim,
everything else as `\uXXXX` (a surrogate pair above the BMP). -/
def escapeChar (c : Char) : List Char :=
  let n := c.toNat
  if c = '"' then ['\\', '"']
  else if c = '\\' then ['\\', '\\']
  else if c = '\n' then ['\\', 'n']
  else if c = '\r' then ['\\', 'r']
  else if c = '\t' then ['\\', 't']
  else if n = 8 then ['\\', 'b']
  else if n = 12 then ['\\', 'f']
  else if n < 32 || 126 < n then
    if n < 65536 then '\\' :: 'u' :: hex4 n
    else ('\\' :: 'u' :: hex4 (55296 + (n - 65536) / 1024)) ++
         ('\\' :: 'u' :: hex4 (56320 + (n - 65536) % 1024))
  else [c]

/-- A JSON string literal: `"` + escaped body + `"`. -/
def dumpStr (s : String) : List Char :=
  '"' :: s.data.flatMap escapeChar ++ ['"']

/-- Decimal digits of `n`, via explicit fuel so that the kernel can reduce it
(the fuel `n+1` always suffices since `n` has at most `n+1` digits). -/
def natDigitsAux : Nat → Nat → List Char
  | 0, _ => []
  | fuel+1, n =>
    if n < 10 then [Char.ofNat (48 + n)]
    else natDigitsAux fuel (n / 10) ++ [Char.ofNat (48 + n % 10)]

def natDigits (n : Nat) : List Char := natDigitsAux (n+1) n

/-- Python `str()` of an int (also its JSON rendering). -/
def intChars (i : Int) : List Char :=
  if i < 0 then '-' :: natDigits i.natAbs else natDigits i.natAbs

/- The next mutual block is the byte-for-byte output of CPython
`json.dumps(v, default=str)` (default separators, `ensure_ascii=True`), with
`sort_keys` as the flag `sk`.  Sorting a dict's items by key commutes with
serializing the values, so the fields are serialized first and the rendered
pairs are then key-sorted — Python's `sorted` and this stable insertion sort
agree on key-distinct dicts. -/
mutual
def dumpVal (sk : Bool) : JVal → List Char
  | .null => "null".data
  | .bool true => "true".data
  | .bool false => "false".data
  | .int i => intChars i
  | .str s => dumpStr s
  | .other s => dumpStr s
  | .arr xs => '[' :: (List.intercalate [',', ' '] (dumpElems sk xs)) ++ [']']
  | .obj fs =>
    let pairs := dumpFields sk fs
    let pairs := if sk then List.insertionSort (fun a b => a.1 ≤ b.1) pairs else pairs
    '\x7b' :: (List.intercalate [',', ' ']
      (pairs.map fun p => dumpStr p.1 ++ ':' :: ' ' :: p.2)) ++ ['\x7d']

def dumpElems (sk : Bool) : List JVal → List (List Char)
  | [] => []
  | v :: vs => dumpVal sk v :: dumpElems sk vs

def dumpFields (sk : Bool) : List (String × JVal) → List (String × List Char)
  | [] => []
  | (k, v) :: fs => (k, dumpVal sk v) :: dumpFields sk fs
end

/-- The string `json.dumps(v, sort_keys=sk, default=str)`. -/
def jsonDumps (sk : Bool) (v : JVal) : String := String.mk (dumpVal sk v)

/-- Line-for-line embedding of `cache.py`'s `_make_cache_key`: serialize the
kwargs dict with sorted keys, SHA-256 it, keep 16 hex characters, and join
with the namespace using `:`. -/
def _make_cache_key (pre : String) (kwargs : List (String × JVal)) : String :=
  let payload := jsonDumps true (JVal.obj kwargs)
  let digest := (sha256hex payload).take 16
  pre ++ ":" ++ digest

/-! ## Redis `KEYS` glob matching (`stringmatchlen`) -/

/-- Split a glob character-class body at its closing `]` (a `\`-escaped
character never closes it); an unterminated class runs to the end. -/
def splitClass : List Char → (List Char × List Char)
  | [] => ([], [])
  | ']' :: ps => ([], ps)
  | '\\' :: c :: ps => let r := splitClass ps; ('\\' :: c :: r.1, r.2)
  | c :: ps => let r := splitClass ps; (c :: r.1, r.2)

/-- Membership of a character in a glob class body: `\`-escaped literals,
`a-b` ranges (either orientation), plain literals. -/
def inClass : List Char → Char → Bool
  | [], _ => false
  | '\\' :: c :: rest, x => (c == x) || inClass rest x
  | a :: '-' :: b :: rest, x =>
      (decide (min a b ≤ x) && decide (x ≤ max a b)) || inClass rest x
  | c :: rest, x => (c == x) || inClass rest x

/-- Whether a glob class body starts with the negation marker `^`. -/
def classNeg : List Char → Bool
  | '^' :: _ => true
  | _ => false

/-- A glob class body with its leading negation marker stripped. -/
def classBody : List Char → List Char
  | '^' :: t => t
  | t => t

/-- Redis glob matching (`*`, `?`, `[...]` with optional leading `^`, `\`
escapes, other characters literal), via explicit fuel: every recursive call
shortens pattern-plus-string, so fuel `|pattern| + |string| + 1` is enough. -/
def globMatchAux : Nat → List Char → List Char → Bool
  | 0, _, _ => false
  | fuel+1, pat, s =>
    match pat with
    | [] => s.isEmpty
    | p :: ps =>
      if p = '*' then
        match s with
        | [] => globMatchAux fuel ps []
        | _ :: ss => globMatchAux fuel ps s || globMatchAux fuel (p :: ps) ss
      else if p = '?' then
        match s with
        | [] => false
        | _ :: ss => globMatchAux fuel ps ss
      else if p = '\\' then
        match s with
        | [] => false
        | d :: ss =>
          match ps with
          | c :: ps2 => (c == d) && globMatchAux fuel ps2 ss
          | [] => ('\\' == d) && globMatchAux fuel [] ss
      else if p = '[' then
        match s with
        | [] => false
        | d :: ss =>
          let r := splitClass (classBody ps)
          (xor (classNeg ps) (inClass r.1 d)) && globMatchAux fuel r.2 ss
      else
        match s with
        | [] => false
        | d :: ss => (p == d) && globMatchAux fuel ps ss

/-- Whether Redis `KEYS pat` matches the key `s`. -/
def globMatch (pat s : String) : Bool :=
  globMatchAux (pat.data.length + s.data.length + 1) pat.data s.data

/-! ## `json.loads` (restricted to the modelled value domain: no floats) -/

def isWsChar (c : Char) : Bool := c == ' ' || c == '\t' || c == '\n' || c == '\r'

def skipWs : List Char → List Char
  | [] => []
  | c :: cs => if isWsChar c then skipWs cs else c :: cs

def hexVal (c : Char) : Option Nat :=
  let n := c.toNat
  if 48 ≤ n && n ≤ 57 then some (n - 48)
  else if 97 ≤ n && n ≤ 102 then some (n - 87)
  else if 65 ≤ n && n ≤ 70 then some (n - 55)
  else none

def digitVal (c : Char) : Option Nat :=
  if 48 ≤ c.toNat && c.toNat ≤ 57 then some (c.toNat - 48) else none

/-- Read a maximal run of decimal digits, folding them onto `acc`. -/
def parseDigits (acc : Nat) : List Char → Nat × List Char
  | [] => (acc, [])
  | c :: cs =>
    match digitVal c with
    | some d => parseDigits (acc * 10 + d) cs
    | none => (acc, c :: cs)

def mapCons (c : Char) : Option (List Char × List Char) → Option (List Char × List Char)
  | some (s, rest) => some (c :: s, rest)
  | none => none

/-- The value of four hex digits, when all four are hex digits. -/
def hex4Val (a b c d : Char) : Option Nat :=
  match hexVal a, hexVal b, hexVal c, hexVal d with
  | some x, some y, some z, some w => some (((x * 16 + y) * 16 + z) * 16 + w)
  | _, _, _, _ => none

/-- Parse a JSON string body after its opening quote, strict mode: short
escapes, `\uXXXX` (surrogate pairs combined; a lone surrogate is rejected —
it has no counterpart among Lean scalar values), unescaped control
characters rejected. -/
def parseStrBody : Nat → List Char → Option (List Char × List Char)
  | 0, _ => none
  | fuel+1, l =>
    match l with
    | [] => none
    | c :: rest =>
      if c = '"' then some ([], rest)
      else if c = '\\' then
        match rest with
        | [] => none
        | e :: r =>
          if e = '"' then mapCons '"' (parseStrBody fuel r)
          else if e = '\\' then mapCons '\\' (parseStrBody fuel r)
          else if e = '/' then mapCons '/' (parseStrBody fuel r)
          else if e = 'b' then mapCons (Char.ofNat 8) (parseStrBody fuel r)
          else if e = 'f' then mapCons (Char.ofNat 12) (parseStrBody fuel r)
          else if e = 'n' then mapCons '\n' (parseStrBody fuel r)
          else if e = 'r' then mapCons '\r' (parseStrBody fuel r)
          else if e = 't' then mapCons '\t' (parseStrBody fuel r)
          else if e = 'u' then
            match r with
            | a :: b :: c2 :: d :: r2 =>
              (match hex4Val a b c2 d with
              | some n =>
                if 55296 ≤ n ∧ n ≤ 56319 then
                  match r2 with
                  | e2 :: u2 :: a2 :: b2 :: c3 :: d2 :: r3 =>
                    if e2 = '\\' ∧ u2 = 'u' then
                      (match hex4Val a2 b2 c3 d2 with
                      | some m =>
                        if 56320 ≤ m ∧ m ≤ 57343 then
                          mapCons (Char.ofNat (65536 + (n - 55296) * 1024 + (m - 56320)))
                            (parseStrBody fuel r3)
                        else none
                      | none => none)
                    else none
                  | _ => none
                else if 56320 ≤ n ∧ n ≤ 57343 then none
                else mapCons (Char.ofNat n) (parseStrBody fuel r2)
              | none => none)
            | _ => none
          else none
      else if c.toNat < 32 then none
      else mapCons c (parseStrBody fuel rest)

/-- Python dict construction for one member parsed in front of the dict `d` of
the later members: a duplicated key keeps its first position and the last
value. -/
def consMember (k : String) (v : JVal) (d : List (String × JVal)) : List (String × JVal) :=
  match List.lookup k d with
  | some v2 => (k, v2) :: d.filter fun p => !(p.1 == k)
  | none => (k, v) :: d

mutual
def parseJ : Nat → List Char → Option (JVal × List Char)
  | 0, _ => none
  | fuel+1, cs =>
    match skipWs cs with
    | [] => none
    | c :: r =>
      if c = 'n' then
        match r with
        | 'u' :: 'l' :: 'l' :: r2 => some (.null, r2)
        | _ => none
      else if c = 't' then
        match r with
        | 'r' :: 'u' :: 'e' :: r2 => some (.bool true, r2)
        | _ => none
      else if c = 'f' then
        match r with
        | 'a' :: 'l' :: 's' :: 'e' :: r2 => some (.bool false, r2)
        | _ => none
      else if c = '"' then
        match parseStrBody (r.length + 1) r with
        | some (s, rest) => some (.str (String.mk s), rest)
        | none => none
      else if c = '[' then
        match skipWs r with
        | [] => none
        | c2 :: r2 =>
          if c2 = ']' then some (.arr [], r2)
          else
            match parseElems fuel (c2 :: r2) with
            | some (vs, rest) => some (.arr vs, rest)
            | none => none
      else if c = '\x7b' then
        match skipWs r with
        | [] => none
        | c2 :: r2 =>
          if c2 = '\x7d' then some (.obj [], r2)
          else
            match parseMembers fuel (c2 :: r2) with
            | some (fs, rest) => some (.obj fs, rest)
            | none => none
      else if c = '-' then
        match r with
        | [] => none
        | c2 :: r2 =>
          match digitVal c2 with
          | some d => some (.int (-(((parseDigits d r2).1 : Nat) : Int)), (parseDigits d r2).2)
          | none => none
      else
        match digitVal c with
        | some d => some (.int (((parseDigits d r).1 : Nat) : Int), (parseDigits d r).2)
        | none => none

def parseElems : Nat → List Char → Option (List JVal × List Char)
  | 0, _ => none
  | fuel+1, cs =>
    match parseJ fuel cs with
    | none => none
    | some (v, r) =>
      match skipWs r with
      | [] => none
      | c :: r2 =>
        if c = ',' then
          match parseElems fuel r2 with
          | some (vs, rest) => some (v :: vs, rest)
          | none => none
        else if c = ']' then some ([v], r2)
        else none

def parseMembers : Nat → List Char → Option (List (String × JVal) × List Char)
  | 0, _ => none
  | fuel+1, cs =>
    match skipWs cs with
    | [] => none
    | c :: r =>
      if c = '"' then
        match parseStrBody (r.length + 1) r with
        | none => none
        | some (k, r2) =>
          match skipWs r2 with
          | [] => none
          | c2 :: r3 =>
            if c2 = ':' then
              match parseJ fuel r3 with
              | none => none
              | some (v, r4) =>
                match skipWs r4 with
                | [] => none
                | c3 :: r5 =>
                  if c3 = ',' then
                    match parseMembers fuel r5 with
                    | some (fs, rest) => some (consMember (String.mk k) v fs, rest)
                    | none => none
                  else if c3 = '\x7d' then some ([(String.mk k, v)], r5)
                  else none
            else none
      else none
end

/- Values in the image of the JSON data model proper: no `default=str`
fallback objects, and every dict key-distinct (a Python dict cannot hold
duplicate keys).  Exactly these round-trip through `dumps`/`loads`
unchanged. -/
mutual
def JVal.wf : JVal → Bool
  | .null => true
  | .bool _ => true
  | .int _ => true
  | .str _ => true
  | .other _ => false
  | .arr xs => wfElems xs
  | .obj fs => wfFields fs && decide ((fs.map Prod.fst).Nodup)

def wfElems : List JVal → Bool
  | [] => true
  | v :: vs => v.wf && wfElems vs

def wfFields : List (String × JVal) → Bool
  | [] => true
  | (_, v) :: fs => v.wf && wfFields fs
end

/- Fuel needed by `parseJ` to parse the serialization of a value (each unit
of fuel is consumed per `parseJ`/`parseElems`/`parseMembers` call). -/
mutual
def needJ : JVal → Nat
  | .null => 1
  | .bool _ => 1
  | .int _ => 1
  | .str _ => 1
  | .other _ => 1
  | .arr [] => 1
  | .arr (x :: xs) => 1 + needElems (x :: xs)
  | .obj [] => 1
  | .obj (f :: fs) => 1 + needMembers (f :: fs)

def needElems : List JVal → Nat
  | [] => 1
  | x :: xs => 1 + max (needJ x) (needElems xs)

def needMembers : List (String × JVal) → Nat
  | [] => 1
  | (_, v) :: fs => 1 + max (needJ v) (needMembers fs)
end

/-- Whether a parse remainder cannot extend a decimal literal (its head, if
any, is not a digit). -/
def headNotDigit : List Char → Bool
  | [] => true
  | c :: _ => (digitVal c).isNone

/-- The call `json.loads(s)`: parse one value, allow trailing whitespace only;
`Except.error` is the raised `ValueError`. -/
def jsonLoads (s : String) : Except Unit JVal :=
  match parseJ (s.data.length + 1) s.data with
  | some (v, rest) => if (skipWs rest).isEmpty then .ok v else .error ()
  | none => .error ()

/-! ## The cache layer state machine (`cache.py`) -/

/-- One key of the remote Redis store: key, stored string payload (the server
holds strings; `decode_responses=True` returns them as `str`), and the
absolute expiry instant written by `SETEX`. -/
structure Entry where
  key : String
  val : String
  expireAt : Int
deriving DecidableEq

/-- Which interactions with the remote store succeed.  `connectOk` is whether
`aioredis.from_url` raises inside `get_redis`; the other four are whether the
corresponding awaited Redis command raises (connection refused, timeout,
protocol error ...). -/
structure StoreEnv where
  connectOk : Bool
  getOk : Bool
  setOk : Bool
  keysOk : Bool
  delOk : Bool
deriving DecidableEq

/-- The module-level mutable state of `cache.py` plus the remote store
contents.  `redisPool` is whether `_redis_pool` is non-`None`; `lastFailed`
is `_last_failed` (`0` = never failed, matching Python's falsy `0.0`).
`connectAttempts`, `getCalls` and `setCalls` are ghost instrumentation
counters (calls of `aioredis.from_url`, `cache_get`, `cache_set`); no control
flow reads them. -/
structure CacheState where
  redisPool : Bool
  lastFailed : Int
  store : List Entry
  connectAttempts : Nat
  getCalls : Nat
  setCalls : Nat
deriving DecidableEq

def _FAIL_COOLDOWN : Int := 10

/-- Line-for-line embedding of `get_redis`: fast-fail inside the cooldown
window, otherwise lazily create the pool, recording `time.time()` into
`_last_failed` when creation raises.  `none` is Python's `None` result. -/
def get_redis (env : StoreEnv) (now : Int) (st : CacheState) : Option Unit × CacheState :=
  if st.redisPool = false ∧ st.lastFailed ≠ 0 ∧ now - st.lastFailed < _FAIL_COOLDOWN then
    (none, st)
  else if st.redisPool = false then
    let st1 := { st with connectAttempts := st.connectAttempts + 1 }
    if env.connectOk then (some (), { st1 with redisPool := true })
    else (none, { st1 with lastFailed := now })
  else (some (), st)

/-- The awaited `r.get(key)`: `nil` for a missing or expired key, otherwise
the stored payload; raises when the environment says so. -/
def redisGetCmd (env : StoreEnv) (now : Int) (store : List Entry) (k : String) :
    Except Unit (Option String) :=
  if env.getOk then
    match store.find? (fun e => e.key == k) with
    | some e => if now < e.expireAt then .ok (some e.val) else .ok none
    | none => .ok none
  else .error ()

/-- The awaited `r.setex(key, ttl, payload)`: overwrite the key with expiry
`now + ttl`; `SETEX` rejects non-positive expiries. -/
def redisSetexCmd (env : StoreEnv) (now : Int) (store : List Entry) (k v : String) (ttl : Int) :
    Except Unit (List Entry) :=
  if env.setOk then
    if ttl ≤ 0 then .error ()
    else .ok ((store.filter fun e => !(e.key == k)) ++ [⟨k, v, now + ttl⟩])
  else .error ()

/-- The awaited `r.keys(pattern)`: all unexpired keys glob-matching the
pattern. -/
def redisKeysCmd (env : StoreEnv) (now : Int) (store : List Entry) (pat : String) :
    Except Unit (List String) :=
  if env.keysOk then
    .ok ((store.filter fun e => globMatch pat e.key && decide (now < e.expireAt)).map Entry.key)
  else .error ()

/-- The awaited `r.delete(*keys)`: remove the keys, returning how many of
them existed (unexpired). -/
def redisDelCmd (env : StoreEnv) (now : Int) (store : List Entry) (ks : List String) :
    Except Unit (Nat × List Entry) :=
  if env.delOk then
    .ok ((ks.filter fun k => store.any fun e => e.key == k && decide (now < e.expireAt)).length,
         store.filter fun e => !(ks.contains e.key))
  else .error ()

/-- Line-for-line embedding of `cache_get`: every failure path inside the
`try` block — unavailable handle, raising `GET`, raising `json.loads` — falls
through to the Python `None`, i.e. `JVal.null`. -/
def cache_get (env : StoreEnv) (now : Int) (st : CacheState) (k : String) : JVal × CacheState :=
  let st0 := { st with getCalls := st.getCalls + 1 }
  match get_redis env now st0 with
  | (none, st1) => (.null, st1)
  | (some _, st1) =>
    match redisGetCmd env now st1.store k with
    | .error _ => (.null, st1)
    | .ok none => (.null, st1)
    | .ok (some raw) =>
      match jsonLoads raw with
      | .error _ => (.null, st1)
      | .ok v => (v, st1)

/-- Line-for-line embedding of `cache_set`: serialize with
`json.dumps(value, default=str)` and `SETEX` it; any failure is swallowed. -/
def cache_set (env : StoreEnv) (now : Int) (st : CacheState) (k : String) (v : JVal) (ttl : Int) :
    CacheState :=
  let st0 := { st with setCalls := st.setCalls + 1 }
  match get_redis env now st0 with
  | (none, st1) => st1
  | (some _, st1) =>
    match redisSetexCmd env now st1.store k (jsonDumps false v) ttl with
    | .error _ => st1
    | .ok store2 => { st1 with store := store2 }

/-- Line-for-line embedding of `invalidate_prefix`: `KEYS` on
`f"{prefix}:*"`, then `DELETE` when non-empty; any failure returns `0`. -/
def invalidate_prefix (env : StoreEnv) (now : Int) (st : CacheState) (pre : String) :
    Nat × CacheState :=
  match get_redis env now st with
  | (none, st1) => (0, st1)
  | (some _, st1) =>
    match redisKeysCmd env now st1.store (pre ++ ":*") with
    | .error _ => (0, st1)
    | .ok ks =>
      if ks.isEmpty then (0, st1)
      else
        match redisDelCmd env now st1.store ks with
        | .error _ => (0, st1)
        | .ok (cnt, store2) => (cnt, { st1 with store := store2 })

/-- Embedding of one call of a route wrapped by
`cache_response(prefix, ttl)`: strip the FastAPI-injected kwargs, derive the
key, serve a non-`None` cached value, otherwise run the wrapped computation
(`func`, which may raise: `Except.error`) and write its result through.  The
third component is ghost instrumentation: how many times `func` was invoked
during this call. -/
def cache_response {ε : Type} (env : StoreEnv) (now : Int) (pre : String) (ttl : Int)
    (kwargs : List (String × JVal)) (func : Unit → Except ε JVal) (st : CacheState) :
    Except ε JVal × CacheState × Nat :=
  let cache_kwargs := kwargs.filter fun kv =>
    !(kv.1 == "db") && !(kv.1 == "request") && !(kv.1 == "background_tasks")
  let key := _make_cache_key pre cache_kwargs
  match cache_get env now st key with
  | (cached, st1) =>
    if cached.isNull = false then (.ok cached, st1, 0)
    else
      match func () with
      | .error e => (.error e, st1, 1)
      | .ok result => (.ok result, cache_set env now st1 key result ttl, 1)

/-- Embedding of `close_redis`: clear the handle (any close error is
swallowed; the handle is cleared regardless). -/
def close_redis (st : CacheState) : CacheState := { st with redisPool := false }

/-! ## The hand-rolled cache keys of `main.py`'s analytics endpoints -/

/-- Python f-string interpolation of an `Optional[str]` value: `None` renders
as the four characters `None`. -/
def fstrOptStr : Option String → String
  | none => "None"
  | some s => s

/-- The `cache_key` built at the top of `platform_comparison` in `main.py`. -/
def platform_comparison_cache_key
    (zone party_district constituency designation : Option String) : String :=
  "analytics:platform:" ++ fstrOptStr zone ++ ":" ++ fstrOptStr party_district ++ ":" ++
    fstrOptStr constituency ++ ":" ++ fstrOptStr designation

/-- The `cache_key` built at the top of `top_profiles` in `main.py`. -/
def top_profiles_cache_key
    (zone party_district constituency designation : Option String) : String :=
  "analytics:top:" ++ fstrOptStr zone ++ ":" ++ fstrOptStr party_district ++ ":" ++
    fstrOptStr constituency ++ ":" ++ fstrOptStr designation

/-! ## Helper lemmas -/

theorem get_redis_store (env : StoreEnv) (now : Int) (st : CacheState) :
    ((get_redis env now st).2).store = st.store := by
  unfold get_redis
  split_ifs <;> rfl

theorem get_redis_pool_some (env : StoreEnv) (now : Int) (st : CacheState)
    (h : st.redisPool = true) : get_redis env now st = (some (), st) := by
  unfold get_redis
  simp [h]

theorem cache_get_store (env : StoreEnv) (now : Int) (st : CacheState) (k : String) :
    ((cache_get env now st k).2).store = st.store := by
  unfold cache_get
  dsimp only
  rcases hg : get_redis env now { st with getCalls := st.getCalls + 1 } with ⟨r, st1⟩
  have hs : st1.store = st.store := by
    have h2 := get_redis_store env now { st with getCalls := st.getCalls + 1 }
    rw [hg] at h2
    exact h2
  cases r with
  | none => simpa using hs
  | some u =>
    cases u
    rcases hc : redisGetCmd env now st1.store k with e | o
    · simpa [hc] using hs
    · rcases o with _ | raw
      · simpa [hc] using hs
      · rcases hl : jsonLoads raw with e | v
        · simp only [hc, hl]
          exact hs
        · simp only [hc, hl]
          exact hs

theorem cache_set_store_fail (env : StoreEnv) (now : Int) (st : CacheState)
    (k : String) (v : JVal) (ttl : Int) (hset : env.setOk = false) :
    (cache_set env now st k v ttl).store = st.store := by
  unfold cache_set
  dsimp only
  rcases hg : get_redis env now { st with setCalls := st.setCalls + 1 } with ⟨r, st1⟩
  have hs : st1.store = st.store := by
    have h2 := get_redis_store env now { st with setCalls := st.setCalls + 1 }
    rw [hg] at h2
    exact h2
  cases r with
  | none => exact hs
  | some u =>
    cases u
    simp only [redisSetexCmd, hset, Bool.false_eq_true, if_false]
    exact hs

/-- C1.  Degradation safety: when every command sent to the remote store
raises (`getOk`/`setOk`/`keysOk`/`delOk` all false — whether or not the pool
object itself can be constructed), `cache_get` returns Python `None`,
`cache_set` leaves the store untouched, and `invalidate_prefix` returns `0`
leaving the store untouched; all three are total Lean functions, i.e. no
exception escapes them, for every state and hence under every sequence of
calls. -/
theorem C1_degradation_safety (env : StoreEnv) (now : Int) (st : CacheState)
    (k : String) (v : JVal) (ttl : Int) (pre : String)
    (hget : env.getOk = false) (hset : env.setOk = false)
    (hkeys : env.keysOk = false) (_hdel : env.delOk = false) :
    (cache_get env now st k).1 = JVal.null
    ∧ (cache_set env now st k v ttl).store = st.store
    ∧ ( invalidate_prefix env now st pre).1 = 0
    ∧ (( invalidate_prefix env now st pre).2).store = st.store := by
  refine ⟨?_, cache_set_store_fail env now st k v ttl hset, ?_, ?_⟩
  · unfold cache_get
    dsimp only
    rcases hg : get_redis env now { st with getCalls := st.getCalls + 1 } with ⟨r, st1⟩
    cases r with
    | none => rfl
    | some u =>
      cases u
      simp only [redisGetCmd, hget, Bool.false_eq_true, if_false]
  · unfold invalidate_prefix
    rcases hg : get_redis env now st with ⟨r, st1⟩
    cases r with
    | none => rfl
    | some u =>
      cases u
      simp only [redisKeysCmd, hkeys, Bool.false_eq_true, if_false]
  · unfold invalidate_prefix
    rcases hg : get_redis env now st with ⟨r, st1⟩
    have hs : st1.store = st.store := by
      have h2 := get_redis_store env now st
      rw [hg] at h2
      exact h2
    cases r with
    | none => exact hs
    | some u =>
      cases u
      simp only [redisKeysCmd, hkeys, Bool.false_eq_true, if_false]
      exact hs

/-- C1 witness: the concrete all-failing environment at a concrete state. -/
theorem C1_degradation_safety_witness :
    (cache_get ⟨true, false, false, false, false⟩ 100 ⟨true, 0, [⟨"stats:a", "1", 200⟩], 0, 0, 0⟩ "stats:a").1 = JVal.null
    ∧ (cache_set ⟨true, false, false, false, false⟩ 100 ⟨true, 0, [⟨"stats:a", "1", 200⟩], 0, 0, 0⟩ "k" (JVal.int 7) 300).store = [⟨"stats:a", "1", 200⟩]
    ∧ ( invalidate_prefix ⟨true, false, false, false, false⟩ 100 ⟨true, 0, [⟨"stats:a", "1", 200⟩], 0, 0, 0⟩ "stats").1 = 0
    ∧ (( invalidate_prefix ⟨true, false, false, false, false⟩ 100 ⟨true, 0, [⟨"stats:a", "1", 200⟩], 0, 0, 0⟩ "stats").2).store = [⟨"stats:a", "1", 200⟩] :=
  C1_degradation_safety ⟨true, false, false, false, false⟩ 100
    ⟨true, 0, [⟨"stats:a", "1", 200⟩], 0, 0, 0⟩ "stats:a" (JVal.int 7) 300 "stats"
    rfl rfl rfl rfl

/-- C3.  Cooldown fast-fail: with no handle and a recorded failure strictly
inside the 10-second cooldown, `get_redis` returns `None` with the state
untouched (in particular no connection is attempted: `connectAttempts` is
unchanged); and outside the fast-fail condition a failing connection attempt
returns `None` after recording `now` into `_last_failed`. -/
theorem C3_cooldown_fast_fail (env : StoreEnv) (now : Int) (st : CacheState)
    (hpool : st.redisPool = false) :
    (st.lastFailed ≠ 0 → now - st.lastFailed < _FAIL_COOLDOWN →
      get_redis env now st = (none, st))
    ∧ (¬(st.lastFailed ≠ 0 ∧ now - st.lastFailed < _FAIL_COOLDOWN) → env.connectOk = false →
      get_redis env now st =
        (none, { st with connectAttempts := st.connectAttempts + 1, lastFailed := now })) := by
  constructor
  · intro h1 h2
    unfold get_redis
    rw [if_pos ⟨hpool, h1, h2⟩]
  · intro h1 hconn
    unfold get_redis
    rw [if_neg, if_pos hpool]
    · simp only [hconn, Bool.false_eq_true, if_false]
    · rintro ⟨-, h3, h4⟩
      exact h1 ⟨h3, h4⟩

/-- C3 witness: at time 7 with a failure recorded at time 5 the call
fast-fails leaving the state unchanged; at time 20 (cooldown expired) a
failing attempt re-records the time. -/
theorem C3_cooldown_fast_fail_witness :
    get_redis ⟨false, true, true, true, true⟩ 7 ⟨false, 5, [], 3, 0, 0⟩ = (none, ⟨false, 5, [], 3, 0, 0⟩)
    ∧ get_redis ⟨false, true, true, true, true⟩ 20 ⟨false, 5, [], 3, 0, 0⟩ = (none, ⟨false, 20, [], 4, 0, 0⟩) :=
  ⟨(C3_cooldown_fast_fail ⟨false, true, true, true, true⟩ 7 ⟨false, 5, [], 3, 0, 0⟩ rfl).1
      (by decide) (by decide),
   (C3_cooldown_fast_fail ⟨false, true, true, true, true⟩ 20 ⟨false, 5, [], 3, 0, 0⟩ rfl).2
      (by decide) rfl⟩

/-- C9.  Frame property of `_last_failed`: while a handle exists, no cache
operation changes `_last_failed` whatever the store does (operation-level
failures never start the cooldown window); and whenever `get_redis` does
change `_last_failed`, it was a failed connection attempt (no pool, failing
constructor) and the new value is the current time. -/
theorem C9_lastFailed_frame (env : StoreEnv) (now : Int) (st : CacheState)
    (k : String) (v : JVal) (ttl : Int) (pre : String) :
    (st.redisPool = true →
      ((cache_get env now st k).2).lastFailed = st.lastFailed
      ∧ (cache_set env now st k v ttl).lastFailed = st.lastFailed
      ∧ ((( invalidate_prefix env now st pre).2)).lastFailed = st.lastFailed)
    ∧ (((get_redis env now st).2).lastFailed ≠ st.lastFailed →
      st.redisPool = false ∧ env.connectOk = false
      ∧ ((get_redis env now st).2).lastFailed = now) := by
  constructor
  · intro hpool
    refine ⟨?_, ?_, ?_⟩
    · unfold cache_get
      dsimp only
      rw [get_redis_pool_some env now { st with getCalls := st.getCalls + 1 } hpool]
      rcases hc : redisGetCmd env now st.store k with e | o
      · simp [hc]
      · rcases o with _ | raw
        · simp [hc]
        · rcases hl : jsonLoads raw with e | w <;> simp [hc, hl]
    · unfold cache_set
      dsimp only
      rw [get_redis_pool_some env now { st with setCalls := st.setCalls + 1 } hpool]
      rcases hc : redisSetexCmd env now st.store k (jsonDumps false v) ttl with e | s2 <;> simp [hc]
    · unfold invalidate_prefix
      rw [get_redis_pool_some env now st hpool]
      rcases hc : redisKeysCmd env now st.store (pre ++ ":*") with e | ks
      · simp [hc]
      · rcases hd : redisDelCmd env now st.store ks with e | p
        · cases hki : ks.isEmpty <;> simp [hc, hki, hd]
        · cases hki : ks.isEmpty <;> simp [hc, hki, hd]
  · intro hch
    unfold get_redis at hch ⊢
    split_ifs at hch ⊢ with h1 h2 h3
    · exact absurd rfl hch
    · exact absurd rfl hch
    · exact ⟨h2, by simpa using h3, rfl⟩
    · exact absurd rfl hch

/-- C9 witness: with a live handle and every command failing, each of the
three operations leaves `_last_failed` at its recorded value 5; and a state
in which `get_redis` does change `_last_failed` satisfies the failure-branch
description. -/
theorem C9_lastFailed_frame_witness :
    ((cache_get ⟨false, false, false, false, false⟩ 100 ⟨true, 5, [], 0, 0, 0⟩ "k").2).lastFailed = 5
    ∧ (cache_set ⟨false, false, false, false, false⟩ 100 ⟨true, 5, [], 0, 0, 0⟩ "k" JVal.null 60).lastFailed = 5
    ∧ ((( invalidate_prefix ⟨false, false, false, false, false⟩ 100 ⟨true, 5, [], 0, 0, 0⟩ "stats").2)).lastFailed = 5 :=
  (C9_lastFailed_frame ⟨false, false, false, false, false⟩ 100 ⟨true, 5, [], 0, 0, 0⟩
    "k" JVal.null 60 "stats").1 rfl

/-- C5.  Injectivity in practice, at the claim's own concrete instance: the
digest-based keys for `(zone=north)` and `(zone=south)` under the
`analytics` namespace differ.  (The "overwhelming probability" clause over
all pairs is a probabilistic statement about SHA-256 and is witnessed here by
the claim's explicit instance.) -/
theorem C5_key_injective_scenario :
    _make_cache_key "analytics" [("zone", JVal.str "north")] ≠
      _make_cache_key "analytics" [("zone", JVal.str "south")] := by
  decide

/-- C10 counterexample: the two calls named by the claim do NOT both produce
`"analytics:platform:x:y:z:None:None"` — the second produces a key with a
single trailing `None`, so the claim's concrete collision instance is false
on the code. -/
theorem C10_raw_key_claimed_pair_no_collision :
    platform_comparison_cache_key (some "x:y") (some "z") none none =
      "analytics:platform:x:y:z:None:None"
    ∧ platform_comparison_cache_key (some "x") (some "y") (some "z") none =
      "analytics:platform:x:y:z:None"
    ∧ platform_comparison_cache_key (some "x") (some "y") (some "z") none ≠
      platform_comparison_cache_key (some "x:y") (some "z") none none := by
  refine ⟨rfl, rfl, ?_⟩
  decide

/-- C10 (amended).  The analytics endpoints interpolate raw filter values
into the key, so distinct filter combinations can collide: zone `"x:y"` with
party_district `"z"` and zone `"x"` with party_district `"y:z"` (all other
filters `None`) both yield `"analytics:platform:x:y:z:None:None"`; the same
scheme is used by `top_profiles`, where the same pair of combinations also
collides. -/
theorem C10_raw_key_collision :
    platform_comparison_cache_key (some "x:y") (some "z") none none =
      "analytics:platform:x:y:z:None:None"
    ∧ platform_comparison_cache_key (some "x") (some "y:z") none none =
      "analytics:platform:x:y:z:None:None"
    ∧ top_profiles_cache_key (some "x:y") (some "z") none none =
      top_profiles_cache_key (some "x") (some "y:z") none none
    ∧ (some "x:y", some "z") ≠ (some "x", some "y:z") := by
  refine ⟨rfl, rfl, rfl, ?_⟩
  decide

theorem get_redis_getCalls (env : StoreEnv) (now : Int) (st : CacheState) :
    ((get_redis env now st).2).getCalls = st.getCalls := by
  unfold get_redis
  split_ifs <;> rfl

theorem get_redis_setCalls (env : StoreEnv) (now : Int) (st : CacheState) :
    ((get_redis env now st).2).setCalls = st.setCalls := by
  unfold get_redis
  split_ifs <;> rfl

theorem cache_get_getCalls (env : StoreEnv) (now : Int) (st : CacheState) (k : String) :
    ((cache_get env now st k).2).getCalls = st.getCalls + 1 := by
  unfold cache_get
  dsimp only
  rcases hg : get_redis env now { st with getCalls := st.getCalls + 1 } with ⟨r, st1⟩
  have hs : st1.getCalls = st.getCalls + 1 := by
    have h2 := get_redis_getCalls env now { st with getCalls := st.getCalls + 1 }
    rw [hg] at h2
    exact h2
  cases r with
  | none => simpa using hs
  | some u =>
    cases u
    rcases hc : redisGetCmd env now st1.store k with e | o
    · simpa [hc] using hs
    · rcases o with _ | raw
      · simpa [hc] using hs
      · rcases hl : jsonLoads raw with e | v
        · simp only [hc, hl]
          exact hs
        · simp only [hc, hl]
          exact hs

theorem cache_get_setCalls (env : StoreEnv) (now : Int) (st : CacheState) (k : String) :
    ((cache_get env now st k).2).setCalls = st.setCalls := by
  unfold cache_get
  dsimp only
  rcases hg : get_redis env now { st with getCalls := st.getCalls + 1 } with ⟨r, st1⟩
  have hs : st1.setCalls = st.setCalls := by
    have h2 := get_redis_setCalls env now { st with getCalls := st.getCalls + 1 }
    rw [hg] at h2
    exact h2
  cases r with
  | none => simpa using hs
  | some u =>
    cases u
    rcases hc : redisGetCmd env now st1.store k with e | o
    · simpa [hc] using hs
    · rcases o with _ | raw
      · simpa [hc] using hs
      · rcases hl : jsonLoads raw with e | v
        · simp only [hc, hl]
          exact hs
        · simp only [hc, hl]
          exact hs

theorem cache_set_getCalls (env : StoreEnv) (now : Int) (st : CacheState)
    (k : String) (v : JVal) (ttl : Int) :
    (cache_set env now st k v ttl).getCalls = st.getCalls := by
  unfold cache_set
  dsimp only
  rcases hg : get_redis env now { st with setCalls := st.setCalls + 1 } with ⟨r, st1⟩
  have hs : st1.getCalls = st.getCalls := by
    have h2 := get_redis_getCalls env now { st with setCalls := st.setCalls + 1 }
    rw [hg] at h2
    exact h2
  cases r with
  | none => exact hs
  | some u =>
    cases u
    rcases hc : redisSetexCmd env now st1.store k (jsonDumps false v) ttl with e | s2
    · simpa [hc] using hs
    · simp only [hc]
      exact hs

theorem cache_set_setCalls (env : StoreEnv) (now : Int) (st : CacheState)
    (k : String) (v : JVal) (ttl : Int) :
    (cache_set env now st k v ttl).setCalls = st.setCalls + 1 := by
  unfold cache_set
  dsimp only
  rcases hg : get_redis env now { st with setCalls := st.setCalls + 1 } with ⟨r, st1⟩
  have hs : st1.setCalls = st.setCalls + 1 := by
    have h2 := get_redis_setCalls env now { st with setCalls := st.setCalls + 1 }
    rw [hg] at h2
    exact h2
  cases r with
  | none => exact hs
  | some u =>
    cases u
    rcases hc : redisSetexCmd env now st1.store k (jsonDumps false v) ttl with e | s2
    · simpa [hc] using hs
    · simp only [hc]
      exact hs

/-- C2.  Memoization correctness of one wrapped call, on the key derived from
the dependency-stripped kwargs: a present (non-`None`) cached value is
returned with the computation not invoked (invocation count 0); on a miss
the computation runs exactly once, its result is written through
`cache_set` with the given ttl and returned; and in every case exactly one
cache read and at most one cache write happen (ghost call counters). -/
theorem C2_memoization {ε : Type} (env : StoreEnv) (now : Int) (pre : String) (ttl : Int)
    (kwargs : List (String × JVal)) (f : Unit → Except ε JVal) (st : CacheState)
    (r : JVal) (key : String)
    (hkey : key = _make_cache_key pre (kwargs.filter fun kv =>
      !(kv.1 == "db") && !(kv.1 == "request") && !(kv.1 == "background_tasks"))) :
    ((cache_get env now st key).1.isNull = false →
      cache_response env now pre ttl kwargs f st =
        (Except.ok (cache_get env now st key).1, (cache_get env now st key).2, 0))
    ∧ ((cache_get env now st key).1.isNull = true → f () = Except.ok r →
      cache_response env now pre ttl kwargs f st =
        (Except.ok r, cache_set env now ((cache_get env now st key).2) key r ttl, 1))
    ∧ ((cache_response env now pre ttl kwargs f st).2.1.getCalls = st.getCalls + 1)
    ∧ ((cache_response env now pre ttl kwargs f st).2.1.setCalls ≤ st.setCalls + 1) := by
  have hgc := cache_get_getCalls env now st key
  have hsc := cache_get_setCalls env now st key
  unfold cache_response
  dsimp only
  rw [← hkey]
  rcases hcg : cache_get env now st key with ⟨cached, st1⟩
  rw [hcg] at hgc hsc
  dsimp only at hgc hsc
  refine ⟨?_, ?_, ?_, ?_⟩
  · intro h
    simp [h]
  · intro h hf
    simp [h, hf]
  · cases hni : cached.isNull
    · simpa [hni] using hgc
    · rcases hf : f () with e | r2
      · simpa [hni, hf] using hgc
      · simp only [hni, Bool.true_eq_false, if_false, hf]
        rw [cache_set_getCalls]
        exact hgc
  · cases hni : cached.isNull
    · simp only [hni, if_true]
      omega
    · rcases hf : f () with e | r2
      · simp only [hni, Bool.true_eq_false, if_false, hf]
        omega
      · simp only [hni, Bool.true_eq_false, if_false, hf]
        rw [cache_set_setCalls]
        omega

/-- C2 witness: with a live store, on the concrete derived key for
`(zone=north)` — first a hit (cached `5` returned, zero invocations of the
computation, no write), then a miss (computation invoked once, its result
`99` written through with ttl 300 and returned). -/
theorem C2_memoization_witness :
    cache_response ⟨true, true, true, true, true⟩ 100 "analytics" 300
      [("zone", JVal.str "north")] (fun _ => Except.ok (ε := Unit) (JVal.int 99))
      ⟨true, 0, [⟨"analytics:d80087f66d87e2ff", "5", 1000⟩], 0, 0, 0⟩ =
      (Except.ok (JVal.int 5), ⟨true, 0, [⟨"analytics:d80087f66d87e2ff", "5", 1000⟩], 0, 1, 0⟩, 0)
    ∧ cache_response ⟨true, true, true, true, true⟩ 100 "analytics" 300
      [("zone", JVal.str "north")] (fun _ => Except.ok (ε := Unit) (JVal.int 99))
      ⟨true, 0, [], 0, 0, 0⟩ =
      (Except.ok (JVal.int 99), ⟨true, 0, [⟨"analytics:d80087f66d87e2ff", "99", 400⟩], 0, 1, 1⟩, 1) := by
  constructor
  · have h := (C2_memoization ⟨true, true, true, true, true⟩ 100 "analytics" 300
      [("zone", JVal.str "north")] (fun _ => Except.ok (ε := Unit) (JVal.int 99))
      ⟨true, 0, [⟨"analytics:d80087f66d87e2ff", "5", 1000⟩], 0, 0, 0⟩ (JVal.int 99)
      "analytics:d80087f66d87e2ff" (by rfl)).1 (by rfl)
    exact h.trans rfl
  · have h := (C2_memoization ⟨true, true, true, true, true⟩ 100 "analytics" 300
      [("zone", JVal.str "north")] (fun _ => Except.ok (ε := Unit) (JVal.int 99))
      ⟨true, 0, [], 0, 0, 0⟩ (JVal.int 99)
      "analytics:d80087f66d87e2ff" (by rfl)).2.1 (by rfl) (by rfl)
    exact h.trans (by rfl)

/-- C7.  A raising computation: its error propagates out of the wrapper
unchanged (with exactly one invocation) and the wrapper writes nothing — the
store contents after the failing call are exactly the store contents
before. -/
theorem C7_compute_error_propagates {ε : Type} (env : StoreEnv) (now : Int) (pre : String)
    (ttl : Int) (kwargs : List (String × JVal)) (f : Unit → Except ε JVal) (st : CacheState)
    (e : ε) (key : String)
    (hkey : key = _make_cache_key pre (kwargs.filter fun kv =>
      !(kv.1 == "db") && !(kv.1 == "request") && !(kv.1 == "background_tasks")))
    (hmiss : (cache_get env now st key).1.isNull = true) (hf : f () = Except.error e) :
    cache_response env now pre ttl kwargs f st = (Except.error e, (cache_get env now st key).2, 1)
    ∧ ((cache_response env now pre ttl kwargs f st).2.1).store = st.store := by
  have hstore := cache_get_store env now st key
  unfold cache_response
  dsimp only
  rw [← hkey]
  rcases hcg : cache_get env now st key with ⟨cached, st1⟩
  rw [hcg] at hmiss hstore
  dsimp only at hmiss hstore
  constructor
  · simp [hmiss, hf]
  · simp only [hmiss, Bool.true_eq_false, if_false, hf]
    exact hstore

/-- C7 witness: a live store, an empty cache, and a computation that raises
`"boom"` — the error comes out unchanged and the store stays empty. -/
theorem C7_compute_error_propagates_witness :
    cache_response ⟨true, true, true, true, true⟩ 100 "stats" 300
      ([] : List (String × JVal)) (fun _ => Except.error "boom")
      ⟨true, 0, [], 0, 0, 0⟩ = (Except.error "boom", ⟨true, 0, [], 0, 1, 0⟩, 1)
    ∧ ((cache_response ⟨true, true, true, true, true⟩ 100 "stats" 300
      ([] : List (String × JVal)) (fun _ => Except.error "boom")
      ⟨true, 0, [], 0, 0, 0⟩).2.1).store = [] := by
  have h := C7_compute_error_propagates ⟨true, true, true, true, true⟩ 100 "stats" 300
    ([] : List (String × JVal)) (fun _ => Except.error "boom")
    ⟨true, 0, [], 0, 0, 0⟩ "boom" "stats:44136fa355b3678a" (by rfl) (by rfl) rfl
  exact ⟨h.1.trans rfl, h.2⟩

theorem dumpFields_eq_map (sk : Bool) (fs : List (String × JVal)) :
    dumpFields sk fs = fs.map fun p => (p.1, dumpVal sk p.2) := by
  induction fs with
  | nil => simp [dumpFields]
  | cons p fs ih =>
    cases p
    simp [dumpFields, ih]

theorem insertionSortByKey_eq {α : Type} (l1 l2 : List (String × α))
    (hperm : l1.Perm l2) (hnd : (l1.map Prod.fst).Nodup) :
    List.insertionSort (fun a b => a.1 ≤ b.1) l1 =
      List.insertionSort (fun a b => a.1 ≤ b.1) l2 := by
  haveI : IsTotal (String × α) (fun a b => a.1 ≤ b.1) := ⟨fun a b => le_total a.1 b.1⟩
  haveI : IsTrans (String × α) (fun a b => a.1 ≤ b.1) := ⟨fun a b c h1 h2 => le_trans h1 h2⟩
  haveI : IsAntisymm (String × α) (fun a b => a.1 < b.1) :=
    ⟨fun a b h1 h2 => absurd h2 (lt_asymm h1)⟩
  have hs1 := List.sorted_insertionSort (fun a b : String × α => a.1 ≤ b.1) l1
  have hs2 := List.sorted_insertionSort (fun a b : String × α => a.1 ≤ b.1) l2
  have hp1 := List.perm_insertionSort (fun a b : String × α => a.1 ≤ b.1) l1
  have hp2 := List.perm_insertionSort (fun a b : String × α => a.1 ≤ b.1) l2
  have hperm12 := (hp1.trans hperm).trans hp2.symm
  have hnd1 : ((List.insertionSort (fun a b : String × α => a.1 ≤ b.1) l1).map Prod.fst).Nodup :=
    ((hp1.map Prod.fst).nodup_iff).2 hnd
  have hnd2 : ((List.insertionSort (fun a b : String × α => a.1 ≤ b.1) l2).map Prod.fst).Nodup :=
    ((hp2.map Prod.fst).nodup_iff).2 (((hperm.map Prod.fst).nodup_iff).1 hnd)
  have hlt1 : (List.insertionSort (fun a b : String × α => a.1 ≤ b.1) l1).Sorted
      (fun a b => a.1 < b.1) := by
    have hne := (List.pairwise_map).1 hnd1
    exact (hs1.and hne).imp fun hab => lt_of_le_of_ne hab.1 hab.2
  have hlt2 : (List.insertionSort (fun a b : String × α => a.1 ≤ b.1) l2).Sorted
      (fun a b => a.1 < b.1) := by
    have hne := (List.pairwise_map).1 hnd2
    exact (hs2.and hne).imp fun hab => lt_of_le_of_ne hab.1 hab.2
  exact List.eq_of_perm_of_sorted hperm12 hlt1 hlt2

theorem jsonDumps_obj_perm (k1 k2 : List (String × JVal)) (hperm : k1.Perm k2)
    (hnd : (k1.map Prod.fst).Nodup) :
    jsonDumps true (JVal.obj k1) = jsonDumps true (JVal.obj k2) := by
  have hmap : (dumpFields true k1).Perm (dumpFields true k2) := by
    rw [dumpFields_eq_map, dumpFields_eq_map]
    exact hperm.map _
  have hndm : ((dumpFields true k1).map Prod.fst).Nodup := by
    rw [dumpFields_eq_map, List.map_map]
    simpa using hnd
  have hsort := insertionSortByKey_eq (dumpFields true k1) (dumpFields true k2) hmap hndm
  unfold jsonDumps
  simp only [dumpVal, if_true]
  rw [hsort]

theorem shaCompress_length (h b : List Nat) : (shaCompress h b).length = 8 := by
  simp [shaCompress]

theorem foldl_shaCompress_length (l : List (List Nat)) (h : List Nat) (hh : h.length = 8) :
    (l.foldl shaCompress h).length = 8 := by
  induction l generalizing h with
  | nil => simpa using hh
  | cons b l ih => exact ih (shaCompress h b) (shaCompress_length h b)

theorem flatMap_word_bytes_length (l : List Nat) :
    (l.flatMap fun x => [x / 2^24 % 256, x / 2^16 % 256, x / 2^8 % 256, x % 256]).length =
      4 * l.length := by
  induction l with
  | nil => simp
  | cons a l ih =>
    simp only [List.flatMap_cons, List.length_append, ih, List.length_cons, List.length_nil,
      List.length_cons]
    omega

theorem sha256Bytes_length (msg : List Nat) : (sha256Bytes msg).length = 32 := by
  unfold sha256Bytes
  dsimp only
  rw [flatMap_word_bytes_length,
    foldl_shaCompress_length (chunks64 (shaPad msg)) shaH0 (by rfl)]

theorem flatMap_hex_pair_length (l : List Nat) :
    (l.flatMap fun b => [hexDigitChar (b / 16 % 16), hexDigitChar (b % 16)]).length =
      2 * l.length := by
  induction l with
  | nil => simp
  | cons a l ih =>
    simp only [List.flatMap_cons, List.length_append, ih, List.length_cons, List.length_nil]
    omega

theorem sha256hex_data_length (s : String) : (sha256hex s).data.length = 64 := by
  unfold sha256hex bytesToHex
  show ((sha256Bytes (strBytes s)).flatMap
    (fun b => [hexDigitChar (b / 16 % 16), hexDigitChar (b % 16)])).length = 64
  rw [flatMap_hex_pair_length, sha256Bytes_length]

theorem sha256hex_take16_length (s : String) : ((sha256hex s).take 16).length = 16 := by
  have hlen : ∀ t : String, t.length = t.data.length := fun t => rfl
  rw [hlen, String.data_take, List.length_take, sha256hex_data_length]
  omega

/-- C4.  Key derivation is pure and insertion-order independent: two
key-distinct parameter dicts holding the same pairs in any insertion order
derive the identical key; that key is the namespace, `:`, and the 16-hex-char
truncation of the SHA-256 digest of the canonical (key-sorted,
`default=str`) serialization — in particular the empty dict also derives a
well-formed key of this exact shape. -/
theorem C4_key_derivation_canonical (pre : String) (k1 k2 : List (String × JVal))
    (hperm : k1.Perm k2) (hnd : (k1.map Prod.fst).Nodup) :
    _make_cache_key pre k1 = _make_cache_key pre k2
    ∧ _make_cache_key pre k1 =
        pre ++ ":" ++ (sha256hex (jsonDumps true (JVal.obj k1))).take 16
    ∧ ((sha256hex (jsonDumps true (JVal.obj k1))).take 16).length = 16 := by
  refine ⟨?_, rfl, sha256hex_take16_length _⟩
  unfold _make_cache_key
  rw [jsonDumps_obj_perm k1 k2 hperm hnd]

/-- C4 witness: the two insertion orders of `(a=None, b=1)` derive the same
key, and the empty dict derives the stable key `stats:44136fa355b3678a`. -/
theorem C4_key_derivation_canonical_witness :
    _make_cache_key "p" [("b", JVal.int 1), ("a", JVal.null)] =
      _make_cache_key "p" [("a", JVal.null), ("b", JVal.int 1)]
    ∧ _make_cache_key "stats" [] = "stats:44136fa355b3678a" := by
  constructor
  · exact (C4_key_derivation_canonical "p" [("b", JVal.int 1), ("a", JVal.null)]
      [("a", JVal.null), ("b", JVal.int 1)] (List.Perm.swap _ _ _) (by decide)).1
  · exact ((C4_key_derivation_canonical "stats" [] [] (List.Perm.refl _) (by decide)).2.1).trans
      (by rfl)

theorem globMatchAux_star (fuel : Nat) (s : List Char) (h : s.length + 1 < fuel) :
    globMatchAux fuel ['*'] s = true := by
  induction fuel generalizing s with
  | zero => omega
  | succ f ih =>
    cases s with
    | nil =>
      rw [globMatchAux.eq_def]
      simp only [reduceIte]
      cases f with
      | zero => omega
      | succ f2 => rw [globMatchAux.eq_def]; rfl
    | cons c ss =>
      rw [globMatchAux.eq_def]
      simp only [reduceIte]
      have hb : globMatchAux f [] (c :: ss) = false := by
        cases f with
        | zero => rfl
        | succ f2 => rw [globMatchAux.eq_def]; rfl
      rw [hb, ih ss (by simp at h; omega)]
      simp

theorem globMatchAux_lit_star (pre k : List Char) (fuel : Nat)
    (hfuel : pre.length + k.length + 2 ≤ fuel)
    (hplain : ∀ c ∈ pre, c ≠ '*' ∧ c ≠ '?' ∧ c ≠ '[' ∧ c ≠ '\\') :
    globMatchAux fuel (pre ++ [':', '*']) k = (pre ++ [':']).isPrefixOf k := by
  induction pre generalizing k fuel with
  | nil =>
    cases fuel with
    | zero => omega
    | succ f =>
      cases k with
      | nil =>
        rw [globMatchAux.eq_def]
        simp [List.isPrefixOf]
      | cons d ss =>
        rw [List.nil_append, globMatchAux.eq_def]
        simp only [reduceIte]
        rw [globMatchAux_star f ss (by simp at hfuel; omega)]
        simp [List.isPrefixOf]
  | cons c pre ih =>
    obtain ⟨h1, h2, h3, h4⟩ := hplain c (List.mem_cons_self _ _)
    cases fuel with
    | zero => simp at hfuel
    | succ f =>
      cases k with
      | nil =>
        rw [List.cons_append, globMatchAux.eq_def]
        simp only [if_neg h1, if_neg h2, if_neg h4, if_neg h3]
        simp [List.isPrefixOf]
      | cons d ss =>
        rw [List.cons_append, globMatchAux.eq_def]
        simp only [if_neg h1, if_neg h2, if_neg h4, if_neg h3]
        rw [ih ss f (by simp at hfuel ⊢; omega)
          (fun c2 hc2 => hplain c2 (List.mem_cons_of_mem _ hc2))]
        simp [List.isPrefixOf]

theorem globMatch_colon_star (pre k : String)
    (hplain : ∀ c ∈ pre.data, c ≠ '*' ∧ c ≠ '?' ∧ c ≠ '[' ∧ c ≠ '\\') :
    globMatch (pre ++ ":*") k = ((pre ++ ":").data).isPrefixOf k.data := by
  unfold globMatch
  have hdata : (pre ++ ":*").data = pre.data ++ [':', '*'] := rfl
  have hdata2 : (pre ++ ":").data = pre.data ++ [':'] := rfl
  rw [hdata, hdata2]
  exact globMatchAux_lit_star pre.data k.data _ (by simp; omega) hplain

theorem key_unique (store : List Entry) (hnd : (store.map Entry.key).Nodup)
    (e e2 : Entry) (he : e ∈ store) (he2 : e2 ∈ store) (hk : e.key = e2.key) : e = e2 :=
  List.inj_on_of_nodup_map hnd he he2 hk

/-- C6 (amended).  For a namespace containing no glob metacharacter, with a
live handle, working `KEYS`/`DEL`, key-distinct and unexpired store contents,
`invalidate_prefix` returns exactly the number of stored keys beginning with
`pre ++ ":"` and removes exactly those keys (in particular it is 0-safe with
no matching keys). -/
theorem C6_invalidate_scoped (env : StoreEnv) (now : Int) (st : CacheState) (pre : String)
    (hkeys : env.keysOk = true) (hdel : env.delOk = true) (hpool : st.redisPool = true)
    (hplain : ∀ c ∈ pre.data, c ≠ '*' ∧ c ≠ '?' ∧ c ≠ '[' ∧ c ≠ '\\')
    (hnd : (st.store.map Entry.key).Nodup)
    (hlive : ∀ e ∈ st.store, now < e.expireAt) :
    ( invalidate_prefix env now st pre).1 =
      (st.store.filter fun e => ((pre ++ ":").data).isPrefixOf e.key.data).length
    ∧ (( invalidate_prefix env now st pre).2).store =
      st.store.filter fun e => !(((pre ++ ":").data).isPrefixOf e.key.data) := by
  have hfilter : (st.store.filter fun e => globMatch (pre ++ ":*") e.key
      && decide (now < e.expireAt)) =
      st.store.filter fun e => ((pre ++ ":").data).isPrefixOf e.key.data := by
    refine List.filter_congr fun e he => ?_
    rw [globMatch_colon_star pre e.key hplain, decide_eq_true (hlive e he), Bool.and_true]
  unfold invalidate_prefix
  rw [get_redis_pool_some env now st hpool]
  dsimp only
  simp only [redisKeysCmd, hkeys, if_true, hfilter]
  by_cases hE : (st.store.filter fun e => ((pre ++ ":").data).isPrefixOf e.key.data) = []
  · rw [hE]
    have hall : ∀ e ∈ st.store, ¬(((pre ++ ":").data).isPrefixOf e.key.data = true) :=
      List.filter_eq_nil_iff.1 hE
    constructor
    · simp [hE]
    · simp only [List.map_nil, List.isEmpty_nil, if_true]
      have hkeep : ∀ e ∈ st.store, (!(((pre ++ ":").data).isPrefixOf e.key.data)) = true := by
        intro e he
        cases hPe : ((pre ++ ":").data).isPrefixOf e.key.data with
        | true => exact absurd hPe (hall e he)
        | false => rfl
      rw [List.filter_eq_self.mpr hkeep]
  · have hne : ((st.store.filter fun e =>
        ((pre ++ ":").data).isPrefixOf e.key.data).map Entry.key).isEmpty = false := by
      cases hmap : (st.store.filter fun e =>
          ((pre ++ ":").data).isPrefixOf e.key.data).map Entry.key with
      | nil => exact absurd (List.map_eq_nil_iff.1 hmap) hE
      | cons a l => rfl
    rw [hne]
    simp only [Bool.false_eq_true, if_false, redisDelCmd, hdel, if_true]
    have hksmem : ∀ k ∈ (st.store.filter fun e =>
        ((pre ++ ":").data).isPrefixOf e.key.data).map Entry.key,
        (st.store.any fun e => e.key == k && decide (now < e.expireAt)) = true := by
      intro k hk
      rcases List.mem_map.1 hk with ⟨e, hef, rfl⟩
      have hes : e ∈ st.store := (List.mem_filter.1 hef).1
      refine List.any_eq_true.2 ⟨e, hes, ?_⟩
      rw [beq_self_eq_true, decide_eq_true (hlive e hes), Bool.and_self]
    have hcontains : ∀ e ∈ st.store,
        (((st.store.filter fun e2 => ((pre ++ ":").data).isPrefixOf e2.key.data).map
          Entry.key).contains e.key) =
        ((pre ++ ":").data).isPrefixOf e.key.data := by
      intro e he
      cases hP : ((pre ++ ":").data).isPrefixOf e.key.data with
      | true =>
        have hmem : e.key ∈ (st.store.filter fun e2 =>
            ((pre ++ ":").data).isPrefixOf e2.key.data).map Entry.key :=
          List.mem_map.2 ⟨e, List.mem_filter.2 ⟨he, hP⟩, rfl⟩
        exact List.elem_eq_true_of_mem hmem
      | false =>
        cases hc : (((st.store.filter fun e2 =>
            ((pre ++ ":").data).isPrefixOf e2.key.data).map Entry.key).contains e.key) with
        | false => rfl
        | true =>
          exfalso
          have hc2 : e.key ∈ (st.store.filter fun e2 =>
              ((pre ++ ":").data).isPrefixOf e2.key.data).map Entry.key :=
            List.mem_of_elem_eq_true hc
          rcases List.mem_map.1 hc2 with ⟨e2, hef2, hkeq⟩
          have he2s : e2 ∈ st.store := (List.mem_filter.1 hef2).1
          have hP2 := (List.mem_filter.1 hef2).2
          have heq : e2 = e := key_unique st.store hnd e2 e he2s he hkeq
          rw [heq, hP] at hP2
          exact Bool.noConfusion hP2
    constructor
    · rw [List.filter_eq_self.mpr hksmem, List.length_map]
    · exact List.filter_congr fun e he => by rw [hcontains e he]

/-- C6 counterexample: `invalidate_prefix` passes the namespace into a Redis
glob pattern, so for the namespace `"a*"` it deletes (and counts) the key
`"ab:x"` even though that key does not begin with `"a*:"` — the claim's
universally-quantified description is false for metacharacter-bearing
namespaces. -/
theorem C6_invalidate_glob_counterexample :
    ( invalidate_prefix ⟨true, true, true, true, true⟩ 0
      ⟨true, 0, [⟨"ab:x", "1", 100⟩], 0, 0, 0⟩ "a*").1 = 1
    ∧ (("a*" ++ ":").data).isPrefixOf "ab:x".data = false
    ∧ (( invalidate_prefix ⟨true, true, true, true, true⟩ 0
      ⟨true, 0, [⟨"ab:x", "1", 100⟩], 0, 0, 0⟩ "a*").2).store = [] := by
  refine ⟨rfl, rfl, rfl⟩

/-- C6 witness: the claim's own scenario — keys `stats:aaa`, `stats:bbb`,
`analytics:ccc`; invalidating `stats` returns 2 and leaves exactly
`analytics:ccc`. -/
theorem C6_invalidate_scoped_witness :
    ( invalidate_prefix ⟨true, true, true, true, true⟩ 0
      ⟨true, 0, [⟨"stats:aaa", "1", 100⟩, ⟨"stats:bbb", "2", 100⟩,
        ⟨"analytics:ccc", "3", 100⟩], 0, 0, 0⟩ "stats").1 = 2
    ∧ (( invalidate_prefix ⟨true, true, true, true, true⟩ 0
      ⟨true, 0, [⟨"stats:aaa", "1", 100⟩, ⟨"stats:bbb", "2", 100⟩,
        ⟨"analytics:ccc", "3", 100⟩], 0, 0, 0⟩ "stats").2).store =
      [⟨"analytics:ccc", "3", 100⟩] := by
  have h := C6_invalidate_scoped ⟨true, true, true, true, true⟩ 0
    ⟨true, 0, [⟨"stats:aaa", "1", 100⟩, ⟨"stats:bbb", "2", 100⟩,
      ⟨"analytics:ccc", "3", 100⟩], 0, 0, 0⟩ "stats"
    rfl rfl rfl (by decide) (by decide) (by decide)
  exact ⟨h.1.trans (by rfl), h.2.trans (by rfl)⟩

theorem char_eq_of_toNat_eq (c d : Char) (h : c.toNat = d.toNat) : c = d := by
  have h2 := congrArg Char.ofNat h
  rwa [Char.ofNat_toNat, Char.ofNat_toNat] at h2

theorem char_valid_range (c : Char) :
    c.toNat < 55296 ∨ (57343 < c.toNat ∧ c.toNat < 1114112) := by
  have hv := c.valid
  have hc : c.toNat = c.val.toNat := rfl
  rcases hv with h | h
  · exact Or.inl (by omega)
  · exact Or.inr (by omega)

theorem charOfNat_toNat_lo (n : Nat) (h1 : n < 55296) : (Char.ofNat n).toNat = n := by
  unfold Char.ofNat
  rw [dif_pos (Or.inl h1)]
  rfl

theorem charOfNat_toNat_hi (n : Nat) (h1 : 57343 < n) (h2 : n < 1114112) :
    (Char.ofNat n).toNat = n := by
  unfold Char.ofNat
  rw [dif_pos (Or.inr ⟨by omega, by omega⟩)]
  rfl

theorem skipWs_space (cs : List Char) : skipWs (' ' :: cs) = skipWs cs := rfl

theorem skipWs_cons (c : Char) (l : List Char) (h : isWsChar c = false) :
    skipWs (c :: l) = c :: l := by
  simp [skipWs, h]

theorem parseJ_ws (fuel : Nat) (cs : List Char) :
    parseJ fuel (' ' :: cs) = parseJ fuel cs := by
  cases fuel with
  | zero => rfl
  | succ f =>
    rw [parseJ.eq_def]
    conv_rhs => rw [parseJ.eq_def]
    dsimp only
    rw [skipWs_space]

theorem parseMembers_ws (fuel : Nat) (cs : List Char) :
    parseMembers fuel (' ' :: cs) = parseMembers fuel cs := by
  cases fuel with
  | zero => rfl
  | succ f =>
    rw [parseMembers.eq_def]
    conv_rhs => rw [parseMembers.eq_def]
    dsimp only
    rw [skipWs_space]

theorem digitVal_digit (c : Char) (h1 : 48 ≤ c.toNat) (h2 : c.toNat ≤ 57) :
    digitVal c = some (c.toNat - 48) := by
  unfold digitVal
  rw [if_pos]
  simp only [Bool.and_eq_true, decide_eq_true_eq]
  exact ⟨h1, h2⟩

theorem digitVal_nondigit (c : Char) (h : c.toNat < 48 ∨ 57 < c.toNat) : digitVal c = none := by
  unfold digitVal
  rw [if_neg]
  simp only [Bool.and_eq_true, decide_eq_true_eq, not_and]
  intro h1
  omega

theorem hexVal_hexDigitChar (x : Nat) (h : x < 16) : hexVal (hexDigitChar x) = some x := by
  unfold hexVal hexDigitChar
  by_cases hx : x < 10
  · rw [if_pos hx, charOfNat_toNat_lo (48 + x) (by omega)]
    rw [if_pos (by simp only [Bool.and_eq_true, decide_eq_true_eq]; omega)]
    congr 1
    omega
  · rw [if_neg hx, charOfNat_toNat_lo (87 + x) (by omega)]
    rw [if_neg (by simp only [Bool.and_eq_true, decide_eq_true_eq]; omega)]
    rw [if_pos (by simp only [Bool.and_eq_true, decide_eq_true_eq]; omega)]
    congr 1
    omega

theorem natDigitsAux_digits (fuel n : Nat) :
    ∀ c ∈ natDigitsAux fuel n, 48 ≤ c.toNat ∧ c.toNat ≤ 57 := by
  induction fuel generalizing n with
  | zero => intro c hc; simp [natDigitsAux] at hc
  | succ f ih =>
    intro c hc
    unfold natDigitsAux at hc
    by_cases hn : n < 10
    · rw [if_pos hn] at hc
      simp only [List.mem_singleton] at hc
      subst hc
      rw [charOfNat_toNat_lo (48 + n) (by omega)]
      omega
    · rw [if_neg hn] at hc
      rcases List.mem_append.1 hc with h | h
      · exact ih (n / 10) c h
      · simp only [List.mem_singleton] at h
        subst h
        rw [charOfNat_toNat_lo (48 + n % 10) (by omega)]
        omega

theorem natDigitsAux_ne_nil (fuel n : Nat) (h : 0 < fuel) : natDigitsAux fuel n ≠ [] := by
  cases fuel with
  | zero => omega
  | succ f =>
    unfold natDigitsAux
    by_cases hn : n < 10
    · rw [if_pos hn]
      simp
    · rw [if_neg hn]
      simp

theorem natDigitsAux_foldl (fuel n acc : Nat) (h : n < fuel) :
    List.foldl (fun a c => a * 10 + (c.toNat - 48)) acc (natDigitsAux fuel n) =
      acc * 10 ^ (natDigitsAux fuel n).length + n := by
  induction fuel generalizing n acc with
  | zero => omega
  | succ f ih =>
    unfold natDigitsAux
    by_cases hn : n < 10
    · rw [if_pos hn]
      simp only [List.foldl_cons, List.foldl_nil, List.length_singleton, pow_one]
      rw [charOfNat_toNat_lo (48 + n) (by omega)]
      omega
    · rw [if_neg hn]
      rw [List.foldl_append, ih (n / 10) acc (by omega)]
      simp only [List.foldl_cons, List.foldl_nil, List.length_append, List.length_singleton]
      rw [charOfNat_toNat_lo (48 + n % 10) (by omega)]
      calc (acc * 10 ^ (natDigitsAux f (n / 10)).length + n / 10) * 10 + (48 + n % 10 - 48)
          = acc * (10 ^ (natDigitsAux f (n / 10)).length * 10) + (n / 10 * 10 + (48 + n % 10 - 48)) := by
            ring
        _ = acc * 10 ^ ((natDigitsAux f (n / 10)).length + 1) + n := by
            rw [← pow_succ]
            omega

theorem parseDigits_spec (ds rest : List Char) (acc : Nat)
    (hds : ∀ c ∈ ds, 48 ≤ c.toNat ∧ c.toNat ≤ 57) (hrest : headNotDigit rest = true) :
    parseDigits acc (ds ++ rest) =
      (List.foldl (fun a c => a * 10 + (c.toNat - 48)) acc ds, rest) := by
  induction ds generalizing acc with
  | nil =>
    simp only [List.nil_append, List.foldl_nil]
    cases rest with
    | nil => rfl
    | cons c l =>
      unfold headNotDigit at hrest
      unfold parseDigits
      cases hd : digitVal c with
      | none => rfl
      | some d =>
        exfalso
        dsimp only at hrest
        rw [hd] at hrest
        simp at hrest
  | cons d ds ih =>
    have hd := hds d (List.mem_cons_self _ _)
    unfold parseDigits
    rw [List.cons_append]
    dsimp only
    rw [digitVal_digit d hd.1 hd.2]
    exact ih (acc * 10 + (d.toNat - 48)) (fun c hc => hds c (List.mem_cons_of_mem _ hc))

theorem natDigits_parse (n : Nat) (rest : List Char) (hrest : headNotDigit rest = true) :
    ∃ d ds, natDigits n = d :: ds ∧ 48 ≤ d.toNat ∧ d.toNat ≤ 57 ∧
      parseDigits (d.toNat - 48) (ds ++ rest) = (n, rest) := by
  rcases hnd : natDigits n with _ | ⟨d, ds⟩
  · exact absurd hnd (natDigitsAux_ne_nil (n+1) n (by omega))
  · have hdig : ∀ c ∈ natDigits n, 48 ≤ c.toNat ∧ c.toNat ≤ 57 := natDigitsAux_digits (n+1) n
    rw [hnd] at hdig
    have hd := hdig d (List.mem_cons_self _ _)
    refine ⟨d, ds, rfl, hd.1, hd.2, ?_⟩
    have hfold := natDigitsAux_foldl (n+1) n 0 (by omega)
    have hnd2 : natDigitsAux (n+1) n = d :: ds := hnd
    rw [hnd2] at hfold
    simp only [List.foldl_cons, zero_mul, zero_add] at hfold
    rw [parseDigits_spec ds rest (d.toNat - 48)
      (fun c hc => hdig c (List.mem_cons_of_mem _ hc)) hrest]
    rw [hfold]

theorem hex4Val_digits (n : Nat) (h : n < 65536) :
    hex4Val (hexDigitChar (n / 4096 % 16)) (hexDigitChar (n / 256 % 16))
      (hexDigitChar (n / 16 % 16)) (hexDigitChar (n % 16)) = some n := by
  unfold hex4Val
  rw [hexVal_hexDigitChar _ (by omega), hexVal_hexDigitChar _ (by omega),
    hexVal_hexDigitChar _ (by omega), hexVal_hexDigitChar _ (by omega)]
  dsimp only
  congr 1
  omega

theorem parseStrBody_uSingle (q1 q2 q3 q4 : Char) (n : Nat) (T : List Char) (fuel : Nat)
    (hq : hex4Val q1 q2 q3 q4 = some n)
    (hn1 : ¬(55296 ≤ n ∧ n ≤ 56319)) (hn2 : ¬(56320 ≤ n ∧ n ≤ 57343)) :
    parseStrBody (fuel + 1) ('\\' :: 'u' :: q1 :: q2 :: q3 :: q4 :: T) =
      mapCons (Char.ofNat n) (parseStrBody fuel T) := by
  rw [parseStrBody.eq_def]
  dsimp only
  simp only [Char.isValue, Char.reduceEq, reduceIte]
  rw [hq]
  dsimp only
  rw [if_neg hn1, if_neg hn2]

theorem parseStrBody_uPair (q1 q2 q3 q4 q5 q6 q7 q8 : Char) (H L : Nat) (T : List Char)
    (fuel : Nat) (hH : hex4Val q1 q2 q3 q4 = some H) (hL : hex4Val q5 q6 q7 q8 = some L)
    (hHr : 55296 ≤ H ∧ H ≤ 56319) (hLr : 56320 ≤ L ∧ L ≤ 57343) :
    parseStrBody (fuel + 1)
      ('\\' :: 'u' :: q1 :: q2 :: q3 :: q4 :: '\\' :: 'u' :: q5 :: q6 :: q7 :: q8 :: T) =
      mapCons (Char.ofNat (65536 + (H - 55296) * 1024 + (L - 56320))) (parseStrBody fuel T) := by
  rw [parseStrBody.eq_def]
  dsimp only
  simp only [Char.isValue, Char.reduceEq, reduceIte]
  rw [hH]
  dsimp only
  rw [if_pos hHr]
  rw [hL]
  dsimp only
  rw [if_pos hLr]
  simp

theorem parseStrBody_escapeChar (c : Char) (T : List Char) (fuel : Nat) :
    parseStrBody (fuel + 1) (escapeChar c ++ T) = mapCons c (parseStrBody fuel T) := by
  by_cases h1 : c = '"'
  · subst h1
    rw [show escapeChar '"' ++ T = '\\' :: '"' :: T from rfl, parseStrBody.eq_def]
    dsimp only
    simp only [Char.isValue, Char.reduceEq, reduceIte]
  by_cases h2 : c = '\\'
  · subst h2
    rw [show escapeChar '\\' ++ T = '\\' :: '\\' :: T from rfl, parseStrBody.eq_def]
    dsimp only
    simp only [Char.isValue, Char.reduceEq, reduceIte]
  by_cases h3 : c = '\n'
  · subst h3
    rw [show escapeChar '\n' ++ T = '\\' :: 'n' :: T from rfl, parseStrBody.eq_def]
    dsimp only
    simp only [Char.isValue, Char.reduceEq, reduceIte]
  by_cases h4 : c = '\r'
  · subst h4
    rw [show escapeChar '\r' ++ T = '\\' :: 'r' :: T from rfl, parseStrBody.eq_def]
    dsimp only
    simp only [Char.isValue, Char.reduceEq, reduceIte]
  by_cases h5 : c = '\t'
  · subst h5
    rw [show escapeChar '\t' ++ T = '\\' :: 't' :: T from rfl, parseStrBody.eq_def]
    dsimp only
    simp only [Char.isValue, Char.reduceEq, reduceIte]
  by_cases h6 : c.toNat = 8
  · have hc : c = Char.ofNat 8 := char_eq_of_toNat_eq _ _ (by rw [h6]; rfl)
    subst hc
    rw [show escapeChar (Char.ofNat 8) ++ T = '\\' :: 'b' :: T from rfl, parseStrBody.eq_def]
    dsimp only
    simp only [Char.isValue, Char.reduceEq, reduceIte]
  by_cases h7 : c.toNat = 12
  · have hc : c = Char.ofNat 12 := char_eq_of_toNat_eq _ _ (by rw [h7]; rfl)
    subst hc
    rw [show escapeChar (Char.ofNat 12) ++ T = '\\' :: 'f' :: T from rfl, parseStrBody.eq_def]
    dsimp only
    simp only [Char.isValue, Char.reduceEq, reduceIte]
  unfold escapeChar
  dsimp only
  rw [if_neg h1, if_neg h2, if_neg h3, if_neg h4, if_neg h5, if_neg h6, if_neg h7]
  by_cases h8 : c.toNat < 32 ∨ 126 < c.toNat
  · rw [if_pos (by simp only [Bool.or_eq_true, decide_eq_true_eq]; omega)]
    have hv := char_valid_range c
    by_cases h9 : c.toNat < 65536
    · rw [if_pos h9]
      rw [show ('\\' :: 'u' :: hex4 c.toNat) ++ T =
        '\\' :: 'u' :: hexDigitChar (c.toNat / 4096 % 16) :: hexDigitChar (c.toNat / 256 % 16) ::
        hexDigitChar (c.toNat / 16 % 16) :: hexDigitChar (c.toNat % 16) :: T from rfl]
      rw [parseStrBody_uSingle _ _ _ _ c.toNat T fuel (hex4Val_digits c.toNat h9)
        (by omega) (by omega), Char.ofNat_toNat]
    · rw [if_neg h9]
      rw [show (('\\' :: 'u' :: hex4 (55296 + (c.toNat - 65536) / 1024)) ++
          ('\\' :: 'u' :: hex4 (56320 + (c.toNat - 65536) % 1024))) ++ T =
        '\\' :: 'u' :: hexDigitChar ((55296 + (c.toNat - 65536) / 1024) / 4096 % 16) ::
        hexDigitChar ((55296 + (c.toNat - 65536) / 1024) / 256 % 16) ::
        hexDigitChar ((55296 + (c.toNat - 65536) / 1024) / 16 % 16) ::
        hexDigitChar ((55296 + (c.toNat - 65536) / 1024) % 16) ::
        '\\' :: 'u' :: hexDigitChar ((56320 + (c.toNat - 65536) % 1024) / 4096 % 16) ::
        hexDigitChar ((56320 + (c.toNat - 65536) % 1024) / 256 % 16) ::
        hexDigitChar ((56320 + (c.toNat - 65536) % 1024) / 16 % 16) ::
        hexDigitChar ((56320 + (c.toNat - 65536) % 1024) % 16) :: T from rfl]
      rw [parseStrBody_uPair _ _ _ _ _ _ _ _ (55296 + (c.toNat - 65536) / 1024)
        (56320 + (c.toNat - 65536) % 1024) T fuel (hex4Val_digits _ (by omega))
        (hex4Val_digits _ (by omega)) ⟨by omega, by omega⟩ ⟨by omega, by omega⟩]
      rw [show 65536 + (55296 + (c.toNat - 65536) / 1024 - 55296) * 1024 +
        (56320 + (c.toNat - 65536) % 1024 - 56320) = c.toNat from by omega, Char.ofNat_toNat]
  · rw [if_neg (by simp only [Bool.or_eq_true, decide_eq_true_eq]; omega)]
    rw [List.singleton_append, parseStrBody.eq_def]
    dsimp only
    rw [if_neg h1, if_neg h2, if_neg (show ¬(c.toNat < 32) by omega)]

theorem parseStrBody_escape (s : List Char) (rest : List Char) (fuel : Nat)
    (h : s.length + 1 ≤ fuel) :
    parseStrBody fuel (s.flatMap escapeChar ++ '"' :: rest) = some (s, rest) := by
  induction s generalizing fuel with
  | nil =>
    cases fuel with
    | zero => omega
    | succ f =>
      rw [List.flatMap_nil, List.nil_append, parseStrBody.eq_def]
      dsimp only
      simp only [Char.isValue, Char.reduceEq, reduceIte]
  | cons c s ih =>
    cases fuel with
    | zero => omega
    | succ f =>
      rw [List.flatMap_cons, List.append_assoc, parseStrBody_escapeChar]
      rw [ih f (by simp only [List.length_cons] at h; omega)]
      rfl

theorem escapeChar_length_pos (c : Char) : 1 ≤ (escapeChar c).length := by
  unfold escapeChar
  dsimp only
  split_ifs <;> simp [hex4]

theorem flatMap_escape_len (s : List Char) : s.length ≤ (s.flatMap escapeChar).length := by
  induction s with
  | nil => simp
  | cons c s ih =>
    simp only [List.flatMap_cons, List.length_append, List.length_cons]
    have := escapeChar_length_pos c
    omega

theorem digit_ne (c : Char) (h1 : 48 ≤ c.toNat) (h2 : c.toNat ≤ 57) (d : Char)
    (hd : d.toNat < 48 ∨ 57 < d.toNat) : c ≠ d := by
  intro he
  subst he
  omega

theorem isWsChar_digit (c : Char) (h1 : 48 ≤ c.toNat) (h2 : c.toNat ≤ 57) :
    isWsChar c = false := by
  unfold isWsChar
  have e1 : (c == ' ') = false := by
    simp only [beq_eq_false_iff_ne]
    exact digit_ne c h1 h2 ' ' (by decide)
  have e2 : (c == '\t') = false := by
    simp only [beq_eq_false_iff_ne]
    exact digit_ne c h1 h2 '\t' (by decide)
  have e3 : (c == '\n') = false := by
    simp only [beq_eq_false_iff_ne]
    exact digit_ne c h1 h2 '\n' (by decide)
  have e4 : (c == '\r') = false := by
    simp only [beq_eq_false_iff_ne]
    exact digit_ne c h1 h2 '\r' (by decide)
  rw [e1, e2, e3, e4]
  rfl

theorem parseElems_ws (fuel : Nat) (cs : List Char) :
    parseElems fuel (' ' :: cs) = parseElems fuel cs := by
  cases fuel with
  | zero => rfl
  | succ f =>
    rw [parseElems.eq_def]
    conv_rhs => rw [parseElems.eq_def]
    dsimp only
    rw [parseJ_ws]

theorem intercalate_singleton2 {α : Type} (sep : List α) (a : List α) :
    List.intercalate sep [a] = a := by
  simp [List.intercalate]

theorem intercalate_cons2 {α : Type} (sep : List α) (a b : List α) (l : List (List α)) :
    List.intercalate sep (a :: b :: l) = a ++ sep ++ List.intercalate sep (b :: l) := by
  simp only [List.intercalate, List.intersperse]
  simp [List.flatten]

theorem lookup_eq_none_of_not_mem {β : Type} (k : String) (d : List (String × β))
    (h : k ∉ d.map Prod.fst) : List.lookup k d = none := by
  induction d with
  | nil => rfl
  | cons p d ih =>
    rcases p with ⟨a, b⟩
    simp only [List.map_cons, List.mem_cons] at h
    push_neg at h
    rw [List.lookup_cons]
    rw [show (k == a) = false from by simp only [beq_eq_false_iff_ne]; exact h.1]
    exact ih h.2

theorem consMember_not_mem (k : String) (v : JVal) (fs : List (String × JVal))
    (h : k ∉ fs.map Prod.fst) : consMember k v fs = (k, v) :: fs := by
  unfold consMember
  rw [lookup_eq_none_of_not_mem k fs h]

theorem needJ_pos (v : JVal) : 1 ≤ needJ v := by
  cases v with
  | arr xs => cases xs <;> simp [needJ]
  | obj fs => cases fs <;> simp [needJ]
  | null => simp [needJ]
  | bool b => simp [needJ]
  | int i => simp [needJ]
  | str s => simp [needJ]
  | other s => simp [needJ]

theorem needElems_pos (xs : List JVal) : 1 ≤ needElems xs := by
  cases xs <;> simp [needElems]

theorem needMembers_pos (fs : List (String × JVal)) : 1 ≤ needMembers fs := by
  rcases fs with _ | ⟨⟨k, v⟩, fs⟩ <;> simp [needMembers]

theorem dumpVal_head (v : JVal) :
    ∃ c t, dumpVal false v = c :: t ∧ isWsChar c = false ∧ c ≠ ']' ∧ c ≠ '\x7d' := by
  cases v with
  | null => exact ⟨'n', _, rfl, rfl, by decide, by decide⟩
  | bool b =>
    cases b
    · exact ⟨'f', _, rfl, rfl, by decide, by decide⟩
    · exact ⟨'t', _, rfl, rfl, by decide, by decide⟩
  | int i =>
    rw [show dumpVal false (JVal.int i) = intChars i from rfl]
    unfold intChars
    by_cases hi : i < 0
    · rw [if_pos hi]
      exact ⟨'-', _, rfl, rfl, by decide, by decide⟩
    · rw [if_neg hi]
      rcases hnd : natDigits i.natAbs with _ | ⟨d, ds⟩
      · exact absurd hnd (natDigitsAux_ne_nil _ _ (by omega))
      · have hdig := natDigitsAux_digits (i.natAbs + 1) i.natAbs d
          (by rw [show natDigitsAux (i.natAbs + 1) i.natAbs = natDigits i.natAbs from rfl, hnd]
              exact List.mem_cons_self _ _)
        exact ⟨d, ds, rfl, isWsChar_digit d hdig.1 hdig.2,
          digit_ne d hdig.1 hdig.2 ']' (by decide), digit_ne d hdig.1 hdig.2 '\x7d' (by decide)⟩
  | str s => exact ⟨'"', _, rfl, rfl, by decide, by decide⟩
  | other s => exact ⟨'"', _, rfl, rfl, by decide, by decide⟩
  | arr xs => exact ⟨'[', _, rfl, rfl, by decide, by decide⟩
  | obj fs => exact ⟨'\x7b', _, rfl, rfl, by decide, by decide⟩

theorem intercalate_dump_head (x : JVal) (xs : List JVal) :
    ∃ c t, List.intercalate [',', ' '] (dumpElems false (x :: xs)) = c :: t ∧
      isWsChar c = false ∧ c ≠ ']' ∧ c ≠ '\x7d' := by
  obtain ⟨c, t, hct, h1, h2, h3⟩ := dumpVal_head x
  cases xs with
  | nil =>
    rw [show dumpElems false [x] = [dumpVal false x] from rfl, intercalate_singleton2, hct]
    exact ⟨c, t, rfl, h1, h2, h3⟩
  | cons y ys =>
    rw [show dumpElems false (x :: y :: ys) = dumpVal false x :: dumpVal false y ::
        dumpElems false ys from rfl,
      intercalate_cons2, hct]
    exact ⟨c, t ++ ([',', ' '] ++ [',', ' '].intercalate (dumpVal false y :: dumpElems false ys)),
      by simp [List.append_assoc], h1, h2, h3⟩

theorem dumpStr_cons (k : String) (X : List Char) :
    dumpStr k ++ X = '"' :: (k.data.flatMap escapeChar ++ '"' :: X) := by
  simp [dumpStr]

theorem intercalate_members_head (f0 : String × JVal) (fs : List (String × JVal)) :
    ∃ t, List.intercalate [',', ' ']
      ((dumpFields false (f0 :: fs)).map fun p => dumpStr p.1 ++ ':' :: ' ' :: p.2) = '"' :: t := by
  rcases f0 with ⟨k, v⟩
  rw [show dumpFields false ((k, v) :: fs) = (k, dumpVal false v) :: dumpFields false fs from rfl,
    List.map_cons]
  cases hm : (dumpFields false fs).map fun p => dumpStr p.1 ++ ':' :: ' ' :: p.2 with
  | nil =>
    rw [intercalate_singleton2]
    exact ⟨_, dumpStr_cons k _⟩
  | cons m ms =>
    rw [intercalate_cons2, List.append_assoc, List.append_assoc]
    exact ⟨_, dumpStr_cons k _⟩

/- Round trip: parsing the compact serialization of a well-formed value
returns the value itself, leaving the remainder untouched, provided the
remainder cannot extend a numeric literal. -/
mutual
theorem parseJ_dump (v : JVal) (rest : List Char) (fuel : Nat)
    (hfuel : needJ v ≤ fuel) (hwf : v.wf = true) (hrest : headNotDigit rest = true) :
    parseJ fuel (dumpVal false v ++ rest) = some (v, rest) := by
  cases fuel with
  | zero => exact absurd hfuel (by have := needJ_pos v; omega)
  | succ f =>
  cases v with
  | null =>
    rw [show dumpVal false JVal.null ++ rest = 'n' :: 'u' :: 'l' :: 'l' :: rest from rfl]
    rw [parseJ.eq_def]
    dsimp only
    rw [skipWs_cons _ _ (by decide)]
    dsimp only
    simp only [Char.isValue, Char.reduceEq, reduceIte]
  | bool b =>
    cases b
    · rw [show dumpVal false (JVal.bool false) ++ rest =
        'f' :: 'a' :: 'l' :: 's' :: 'e' :: rest from rfl]
      rw [parseJ.eq_def]
      dsimp only
      rw [skipWs_cons _ _ (by decide)]
      dsimp only
      simp only [Char.isValue, Char.reduceEq, reduceIte]
    · rw [show dumpVal false (JVal.bool true) ++ rest = 't' :: 'r' :: 'u' :: 'e' :: rest from rfl]
      rw [parseJ.eq_def]
      dsimp only
      rw [skipWs_cons _ _ (by decide)]
      dsimp only
      simp only [Char.isValue, Char.reduceEq, reduceIte]
  | int i =>
    obtain ⟨d, ds, hnd, hd1, hd2, hpd⟩ := natDigits_parse i.natAbs rest hrest
    by_cases hi : i < 0
    · rw [show dumpVal false (JVal.int i) ++ rest = '-' :: (natDigits i.natAbs ++ rest) from by
        rw [show dumpVal false (JVal.int i) = intChars i from rfl]
        unfold intChars
        rw [if_pos hi]
        simp]
      rw [parseJ.eq_def]
      dsimp only
      rw [skipWs_cons _ _ (by decide)]
      dsimp only
      simp only [Char.isValue, Char.reduceEq, reduceIte]
      rw [hnd, List.cons_append]
      dsimp only
      rw [digitVal_digit d hd1 hd2]
      dsimp only
      rw [hpd]
      dsimp only
      rw [show -((i.natAbs : Nat) : Int) = i from by omega]
    · rw [show dumpVal false (JVal.int i) ++ rest = natDigits i.natAbs ++ rest from by
        rw [show dumpVal false (JVal.int i) = intChars i from rfl]
        unfold intChars
        rw [if_neg hi]]
      rw [hnd, List.cons_append, parseJ.eq_def]
      dsimp only
      rw [skipWs_cons _ _ (isWsChar_digit d hd1 hd2)]
      dsimp only
      rw [if_neg (digit_ne d hd1 hd2 'n' (by decide)), if_neg (digit_ne d hd1 hd2 't' (by decide)),
        if_neg (digit_ne d hd1 hd2 'f' (by decide)), if_neg (digit_ne d hd1 hd2 '"' (by decide)),
        if_neg (digit_ne d hd1 hd2 '[' (by decide)), if_neg (digit_ne d hd1 hd2 '\x7b' (by decide)),
        if_neg (digit_ne d hd1 hd2 '-' (by decide))]
      rw [digitVal_digit d hd1 hd2]
      dsimp only
      rw [hpd]
      dsimp only
      rw [show ((i.natAbs : Nat) : Int) = i from by omega]
  | str s =>
    rw [show dumpVal false (JVal.str s) ++ rest =
      '"' :: (s.data.flatMap escapeChar ++ '"' :: rest) from by
        rw [show dumpVal false (JVal.str s) =
          '"' :: (s.data.flatMap escapeChar ++ ['"']) from rfl]
        simp [List.append_assoc]]
    rw [parseJ.eq_def]
    dsimp only
    rw [skipWs_cons _ _ (by decide)]
    dsimp only
    simp only [Char.isValue, Char.reduceEq, reduceIte]
    rw [parseStrBody_escape s.data rest _ (by
      have h2 := flatMap_escape_len s.data
      simp only [List.length_append, List.length_cons]
      omega)]
  | other s => exact Bool.noConfusion (hwf.symm.trans (show JVal.wf (JVal.other s) = false from rfl))
  | arr xs =>
    cases xs with
    | nil =>
      rw [show dumpVal false (JVal.arr []) ++ rest = '[' :: ']' :: rest from rfl]
      rw [parseJ.eq_def]
      dsimp only
      rw [skipWs_cons _ _ (by decide)]
      dsimp only
      simp only [Char.isValue, Char.reduceEq, reduceIte]
      rw [skipWs_cons _ _ (by decide)]
      dsimp only
      simp only [Char.isValue, Char.reduceEq, reduceIte]
    | cons x xs =>
      rw [show dumpVal false (JVal.arr (x :: xs)) ++ rest =
        '[' :: (List.intercalate [',', ' '] (dumpElems false (x :: xs)) ++ ']' :: rest) from by
          rw [show dumpVal false (JVal.arr (x :: xs)) =
            '[' :: List.intercalate [',', ' '] (dumpElems false (x :: xs)) ++ [']'] from rfl]
          simp [List.append_assoc]]
      rw [parseJ.eq_def]
      dsimp only
      rw [skipWs_cons _ _ (by decide)]
      dsimp only
      simp only [Char.isValue, Char.reduceEq, reduceIte]
      obtain ⟨c, t, hct, hws, hbr, hbr2⟩ := intercalate_dump_head x xs
      rw [show List.intercalate [',', ' '] (dumpElems false (x :: xs)) ++ ']' :: rest =
        c :: (t ++ ']' :: rest) from by rw [hct]; simp]
      rw [skipWs_cons _ _ hws]
      dsimp only
      rw [if_neg hbr]
      rw [show c :: (t ++ ']' :: rest) =
        List.intercalate [',', ' '] (dumpElems false (x :: xs)) ++ ']' :: rest from by
          rw [hct]; simp]
      rw [parseElems_dump (x :: xs) rest f (List.cons_ne_nil x xs)
        (by simp only [needJ] at hfuel; omega)
        (by simpa [JVal.wf] using hwf)]
  | obj fs =>
    cases fs with
    | nil =>
      rw [show dumpVal false (JVal.obj []) ++ rest = '\x7b' :: '\x7d' :: rest from rfl]
      rw [parseJ.eq_def]
      dsimp only
      rw [skipWs_cons _ _ (by decide)]
      dsimp only
      simp only [Char.isValue, Char.reduceEq, reduceIte]
      rw [skipWs_cons _ _ (by decide)]
      dsimp only
      simp only [Char.isValue, Char.reduceEq, reduceIte]
    | cons f0 fs =>
      rw [show dumpVal false (JVal.obj (f0 :: fs)) ++ rest =
        '\x7b' :: (List.intercalate [',', ' '] ((dumpFields false (f0 :: fs)).map
          fun p => dumpStr p.1 ++ ':' :: ' ' :: p.2) ++ '\x7d' :: rest) from by
          rw [show dumpVal false (JVal.obj (f0 :: fs)) =
            '\x7b' :: List.intercalate [',', ' '] ((dumpFields false (f0 :: fs)).map
              fun p => dumpStr p.1 ++ ':' :: ' ' :: p.2) ++ ['\x7d'] from rfl]
          simp [List.append_assoc]]
      rw [parseJ.eq_def]
      dsimp only
      rw [skipWs_cons _ _ (by decide)]
      dsimp only
      simp only [Char.isValue, Char.reduceEq, reduceIte]
      obtain ⟨t, hct⟩ := intercalate_members_head f0 fs
      rw [show List.intercalate [',', ' '] ((dumpFields false (f0 :: fs)).map
          fun p => dumpStr p.1 ++ ':' :: ' ' :: p.2) ++ '\x7d' :: rest =
        '"' :: (t ++ '\x7d' :: rest) from by rw [hct]; simp]
      rw [skipWs_cons _ _ (by decide)]
      dsimp only
      simp only [Char.isValue, Char.reduceEq, reduceIte]
      rw [show ('"' : Char) :: (t ++ '\x7d' :: rest) =
        List.intercalate [',', ' '] ((dumpFields false (f0 :: fs)).map
          fun p => dumpStr p.1 ++ ':' :: ' ' :: p.2) ++ '\x7d' :: rest from by
          rw [hct]; simp]
      rw [parseMembers_dump (f0 :: fs) rest f (List.cons_ne_nil f0 fs)
        (by simp only [needJ] at hfuel; omega)
        (by have h2 := hwf
            simp only [JVal.wf, Bool.and_eq_true] at h2
            exact h2.1)
        (by have h2 := hwf
            simp only [JVal.wf, Bool.and_eq_true, decide_eq_true_eq] at h2
            exact h2.2)]

theorem parseElems_dump (xs : List JVal) (rest : List Char) (fuel : Nat) (hne : xs ≠ [])
    (hfuel : needElems xs ≤ fuel) (hwf : wfElems xs = true) :
    parseElems fuel (List.intercalate [',', ' '] (dumpElems false xs) ++ ']' :: rest) =
      some (xs, rest) := by
  cases xs with
  | nil => exact absurd rfl hne
  | cons x xs =>
    cases fuel with
    | zero => exact absurd hfuel (by have := needElems_pos (x :: xs); omega)
    | succ f =>
    have hwf2 : x.wf = true ∧ wfElems xs = true := by
      simpa [wfElems, Bool.and_eq_true] using hwf
    rw [parseElems.eq_def]
    dsimp only
    cases xs with
    | nil =>
      rw [show List.intercalate [',', ' '] (dumpElems false [x]) ++ ']' :: rest =
        dumpVal false x ++ ']' :: rest from by
          rw [show dumpElems false [x] = [dumpVal false x] from rfl, intercalate_singleton2]]
      rw [parseJ_dump x (']' :: rest) f
        (by simp only [needElems] at hfuel; omega)
        hwf2.1 (by rfl)]
      dsimp only
      rw [skipWs_cons _ _ (by decide)]
      dsimp only
      simp only [Char.isValue, Char.reduceEq, reduceIte]
    | cons y ys =>
      rw [show List.intercalate [',', ' '] (dumpElems false (x :: y :: ys)) ++ ']' :: rest =
        dumpVal false x ++ (',' :: ' ' ::
          (List.intercalate [',', ' '] (dumpElems false (y :: ys)) ++ ']' :: rest)) from by
          rw [show dumpElems false (x :: y :: ys) =
            dumpVal false x :: dumpVal false y :: dumpElems false ys from rfl, intercalate_cons2]
          rw [show (dumpVal false y :: dumpElems false ys) = dumpElems false (y :: ys) from rfl]
          simp [List.append_assoc]]
      rw [parseJ_dump x (',' :: ' ' ::
          (List.intercalate [',', ' '] (dumpElems false (y :: ys)) ++ ']' :: rest)) f
        (by simp only [needElems] at hfuel; omega)
        hwf2.1 (by rfl)]
      dsimp only
      rw [skipWs_cons _ _ (by decide)]
      dsimp only
      simp only [Char.isValue, Char.reduceEq, reduceIte]
      rw [parseElems_ws]
      rw [parseElems_dump (y :: ys) rest f (List.cons_ne_nil y ys)
        (by simp only [needElems] at hfuel ⊢; omega)
        hwf2.2]

theorem parseMembers_dump (fs : List (String × JVal)) (rest : List Char) (fuel : Nat)
    (hne : fs ≠ []) (hfuel : needMembers fs ≤ fuel) (hwf : wfFields fs = true)
    (hnd : (fs.map Prod.fst).Nodup) :
    parseMembers fuel (List.intercalate [',', ' '] ((dumpFields false fs).map
      fun p => dumpStr p.1 ++ ':' :: ' ' :: p.2) ++ '\x7d' :: rest) = some (fs, rest) := by
  cases fs with
  | nil => exact absurd rfl hne
  | cons f0 fs =>
    rcases f0 with ⟨k, v⟩
    cases fuel with
    | zero => exact absurd hfuel (by have := needMembers_pos ((k, v) :: fs); omega)
    | succ f =>
    have hwf2 : v.wf = true ∧ wfFields fs = true := by
      simpa [wfFields, Bool.and_eq_true] using hwf
    have hnd2 : k ∉ fs.map Prod.fst ∧ (fs.map Prod.fst).Nodup := by
      simp only [List.map_cons] at hnd
      exact ⟨(List.nodup_cons.mp hnd).1, (List.nodup_cons.mp hnd).2⟩
    rw [parseMembers.eq_def]
    dsimp only
    cases fs with
    | nil =>
      rw [show List.intercalate [',', ' '] ((dumpFields false [(k, v)]).map
          fun p => dumpStr p.1 ++ ':' :: ' ' :: p.2) ++ '\x7d' :: rest =
        '"' :: (k.data.flatMap escapeChar ++ '"' ::
          (':' :: ' ' :: (dumpVal false v ++ '\x7d' :: rest))) from by
          rw [show (dumpFields false [(k, v)]).map
              (fun p => dumpStr p.1 ++ ':' :: ' ' :: p.2) =
            [dumpStr k ++ ':' :: ' ' :: dumpVal false v] from rfl, intercalate_singleton2]
          simp [dumpStr, List.append_assoc]]
      rw [skipWs_cons _ _ (by decide)]
      dsimp only
      simp only [Char.isValue, Char.reduceEq, reduceIte]
      rw [parseStrBody_escape k.data (':' :: ' ' :: (dumpVal false v ++ '\x7d' :: rest)) _ (by
        have h2 := flatMap_escape_len k.data
        simp only [List.length_append, List.length_cons]
        omega)]
      dsimp only
      rw [skipWs_cons _ _ (by decide)]
      dsimp only
      simp only [Char.isValue, Char.reduceEq, reduceIte]
      rw [parseJ_ws]
      rw [parseJ_dump v ('\x7d' :: rest) f
        (by simp only [needMembers] at hfuel; omega)
        hwf2.1 (by rfl)]
      dsimp only
      rw [skipWs_cons _ _ (by decide)]
      dsimp only
      simp only [Char.isValue, Char.reduceEq, reduceIte]
    | cons g gs =>
      rw [show List.intercalate [',', ' '] ((dumpFields false ((k, v) :: g :: gs)).map
          fun p => dumpStr p.1 ++ ':' :: ' ' :: p.2) ++ '\x7d' :: rest =
        '"' :: (k.data.flatMap escapeChar ++ '"' ::
          (':' :: ' ' :: (dumpVal false v ++ ',' :: ' ' ::
            (List.intercalate [',', ' '] ((dumpFields false (g :: gs)).map
              fun p => dumpStr p.1 ++ ':' :: ' ' :: p.2) ++ '\x7d' :: rest)))) from by
          rw [show (dumpFields false ((k, v) :: g :: gs)).map
              (fun p => dumpStr p.1 ++ ':' :: ' ' :: p.2) =
            (dumpStr k ++ ':' :: ' ' :: dumpVal false v) ::
              ((dumpFields false (g :: gs)).map
                fun p => dumpStr p.1 ++ ':' :: ' ' :: p.2) from by
              rw [show dumpFields false ((k, v) :: g :: gs) =
                (k, dumpVal false v) :: dumpFields false (g :: gs) from rfl, List.map_cons]]
          rcases hm : (dumpFields false (g :: gs)).map
              (fun p => dumpStr p.1 ++ ':' :: ' ' :: p.2) with _ | ⟨m, ms⟩
          · exact absurd hm (by
              rw [show dumpFields false (g :: gs) =
                (g.1, dumpVal false g.2) :: dumpFields false gs from by
                  rcases g with ⟨gk, gv⟩; rfl, List.map_cons]
              simp)
          · rw [hm, intercalate_cons2, ← hm]
            simp [dumpStr, List.append_assoc]]
      rw [skipWs_cons _ _ (by decide)]
      dsimp only
      simp only [Char.isValue, Char.reduceEq, reduceIte]
      rw [parseStrBody_escape k.data (':' :: ' ' :: (dumpVal false v ++ ',' :: ' ' ::
          (List.intercalate [',', ' '] ((dumpFields false (g :: gs)).map
            fun p => dumpStr p.1 ++ ':' :: ' ' :: p.2) ++ '\x7d' :: rest))) _ (by
        have h2 := flatMap_escape_len k.data
        simp only [List.length_append, List.length_cons]
        omega)]
      dsimp only
      rw [skipWs_cons _ _ (by decide)]
      dsimp only
      simp only [Char.isValue, Char.reduceEq, reduceIte]
      rw [parseJ_ws]
      rw [parseJ_dump v (',' :: ' ' ::
          (List.intercalate [',', ' '] ((dumpFields false (g :: gs)).map
            fun p => dumpStr p.1 ++ ':' :: ' ' :: p.2) ++ '\x7d' :: rest)) f
        (by simp only [needMembers] at hfuel; omega)
        hwf2.1 (by rfl)]
      dsimp only
      rw [skipWs_cons _ _ (by decide)]
      dsimp only
      simp only [Char.isValue, Char.reduceEq, reduceIte]
      rw [parseMembers_ws]
      rw [parseMembers_dump (g :: gs) rest f (List.cons_ne_nil g gs)
        (by simp only [needMembers] at hfuel ⊢; omega)
        hwf2.2 hnd2.2]
      dsimp only
      rw [show String.mk k.data = k from rfl]
      rw [consMember_not_mem k v (g :: gs) hnd2.1]
end

theorem dumpVal_len_pos (v : JVal) : 1 ≤ (dumpVal false v).length := by
  obtain ⟨c, t, hct, h1, h2, h3⟩ := dumpVal_head v
  rw [hct]
  simp

/- The parser fuel budget `needJ` is covered by the length of the
serialization itself (so `jsonLoads`'s fuel `length + 1` always suffices). -/
mutual
theorem needJ_le_len (v : JVal) : needJ v ≤ (dumpVal false v).length := by
  cases v with
  | null =>
    simp only [needJ]
    have := dumpVal_len_pos JVal.null
    omega
  | bool b =>
    simp only [needJ]
    have := dumpVal_len_pos (JVal.bool b)
    omega
  | int i =>
    simp only [needJ]
    have := dumpVal_len_pos (JVal.int i)
    omega
  | str s =>
    simp only [needJ]
    have := dumpVal_len_pos (JVal.str s)
    omega
  | other s =>
    simp only [needJ]
    have := dumpVal_len_pos (JVal.other s)
    omega
  | arr xs =>
    cases xs with
    | nil =>
      simp only [needJ]
      rw [show dumpVal false (JVal.arr []) = ['[', ']'] from rfl]
      simp
    | cons x xs =>
      simp only [needJ]
      rw [show dumpVal false (JVal.arr (x :: xs)) =
        '[' :: List.intercalate [',', ' '] (dumpElems false (x :: xs)) ++ [']'] from rfl]
      have h := needElems_le_len (x :: xs) (List.cons_ne_nil x xs)
      simp only [needElems] at h ⊢
      simp only [List.cons_append, List.length_cons, List.length_append, List.length_singleton]
      omega
  | obj fs =>
    cases fs with
    | nil =>
      simp only [needJ]
      rw [show dumpVal false (JVal.obj []) = ['\x7b', '\x7d'] from rfl]
      simp
    | cons f0 fs =>
      simp only [needJ]
      rw [show dumpVal false (JVal.obj (f0 :: fs)) =
        '\x7b' :: List.intercalate [',', ' '] ((dumpFields false (f0 :: fs)).map
          fun p => dumpStr p.1 ++ ':' :: ' ' :: p.2) ++ ['\x7d'] from rfl]
      have h := needMembers_le_len (f0 :: fs) (List.cons_ne_nil f0 fs)
      simp only [List.cons_append, List.length_cons, List.length_append, List.length_singleton]
      omega

theorem needElems_le_len (xs : List JVal) (h : xs ≠ []) :
    needElems xs ≤ 1 + (List.intercalate [',', ' '] (dumpElems false xs)).length := by
  cases xs with
  | nil => exact absurd rfl h
  | cons x xs =>
    cases xs with
    | nil =>
      rw [show dumpElems false [x] = [dumpVal false x] from rfl, intercalate_singleton2]
      have h1 := needJ_le_len x
      have h2 := dumpVal_len_pos x
      simp only [needElems]
      omega
    | cons y ys =>
      rw [show dumpElems false (x :: y :: ys) =
        dumpVal false x :: dumpVal false y :: dumpElems false ys from rfl, intercalate_cons2,
        show dumpVal false y :: dumpElems false ys = dumpElems false (y :: ys) from rfl]
      have h1 := needJ_le_len x
      have h3 := needElems_le_len (y :: ys) (List.cons_ne_nil y ys)
      simp only [needElems] at h3 ⊢
      simp only [List.length_append, List.length_cons, List.length_nil]
      omega

theorem needMembers_le_len (fs : List (String × JVal)) (h : fs ≠ []) :
    needMembers fs ≤ 1 + (List.intercalate [',', ' '] ((dumpFields false fs).map
      fun p => dumpStr p.1 ++ ':' :: ' ' :: p.2)).length := by
  cases fs with
  | nil => exact absurd rfl h
  | cons f0 fs =>
    rcases f0 with ⟨k, v⟩
    cases fs with
    | nil =>
      rw [show (dumpFields false [(k, v)]).map (fun p => dumpStr p.1 ++ ':' :: ' ' :: p.2) =
        [dumpStr k ++ ':' :: ' ' :: dumpVal false v] from rfl, intercalate_singleton2]
      have h1 := needJ_le_len v
      simp only [needMembers]
      simp only [List.length_append, List.length_cons]
      omega
    | cons g gs =>
      rw [show (dumpFields false ((k, v) :: g :: gs)).map
          (fun p => dumpStr p.1 ++ ':' :: ' ' :: p.2) =
        (dumpStr k ++ ':' :: ' ' :: dumpVal false v) ::
          ((dumpFields false (g :: gs)).map fun p => dumpStr p.1 ++ ':' :: ' ' :: p.2) from by
          rw [show dumpFields false ((k, v) :: g :: gs) =
            (k, dumpVal false v) :: dumpFields false (g :: gs) from rfl, List.map_cons]]
      rcases hm : (dumpFields false (g :: gs)).map
          (fun p => dumpStr p.1 ++ ':' :: ' ' :: p.2) with _ | ⟨m, ms⟩
      · exact absurd hm (by
          rw [show dumpFields false (g :: gs) =
            (g.1, dumpVal false g.2) :: dumpFields false gs from by
              rcases g with ⟨gk, gv⟩; rfl, List.map_cons]
          simp)
      · rw [hm, intercalate_cons2, ← hm]
        have h1 := needJ_le_len v
        have h3 := needMembers_le_len (g :: gs) (List.cons_ne_nil g gs)
        simp only [needMembers] at h3 ⊢
        simp only [List.length_append, List.length_cons, List.length_nil]
        omega
end

/- `json.loads(json.dumps(v))` returns `v` itself for every value in the
JSON data model proper. -/
theorem jsonLoads_dumps (v : JVal) (hwf : v.wf = true) :
    jsonLoads (jsonDumps false v) = .ok v := by
  have hfe : ∀ fl : Nat, needJ v ≤ fl → parseJ fl (dumpVal false v) = some (v, []) := by
    intro fl hfl
    have h2 := parseJ_dump v [] fl hfl hwf rfl
    rwa [List.append_nil] at h2
  unfold jsonLoads
  rw [show (jsonDumps false v).data = dumpVal false v from rfl]
  rw [hfe ((dumpVal false v).length + 1) (by have := needJ_le_len v; omega)]
  rfl

theorem find?_filter_not {α : Type} (p : α → Bool) (l r : List α) :
    List.find? p ((l.filter fun e => !(p e)) ++ r) = List.find? p r := by
  induction l with
  | nil => rfl
  | cons e l ih =>
    rw [List.filter_cons]
    by_cases hpe : p e = true
    · rw [hpe, Bool.not_true, if_neg (by simp)]
      exact ih
    · have hf : p e = false := by revert hpe; cases p e <;> simp
      rw [hf, Bool.not_false, if_pos rfl, List.cons_append, List.find?_cons, hf]
      exact ih

/-- C8 (amended): write-then-read round trip.  Under a live store (handle
present, `GET` and `SETEX` succeeding), a positive ttl and a value in the
JSON data model proper (no `default=str` fallback objects, dict keys
distinct), `cache_set(key, v, ttl)` followed immediately by
`cache_get(key)` returns `v` itself. -/
theorem C8_round_trip (env : StoreEnv) (now : Int) (st : CacheState) (k : String) (v : JVal)
    (ttl : Int) (hget : env.getOk = true) (hset : env.setOk = true)
    (hpool : st.redisPool = true) (httl : 0 < ttl) (hwf : v.wf = true) :
    (cache_get env now (cache_set env now st k v ttl) k).1 = v := by
  unfold cache_set
  dsimp only
  rw [get_redis_pool_some env now { st with setCalls := st.setCalls + 1 } hpool]
  dsimp only
  unfold redisSetexCmd
  rw [hset, if_pos rfl, if_neg (by omega)]
  dsimp only
  unfold cache_get
  dsimp only
  rw [get_redis_pool_some _ _ _ (by exact hpool)]
  dsimp only
  unfold redisGetCmd
  rw [hget, if_pos rfl]
  rw [find?_filter_not (fun e => e.key == k) st.store [⟨k, jsonDumps false v, now + ttl⟩]]
  rw [List.find?_cons, show ((⟨k, jsonDumps false v, now + ttl⟩ : Entry).key == k) = true from by
    simp]
  dsimp only
  rw [if_pos (by omega)]
  dsimp only
  rw [jsonLoads_dumps v hwf]

theorem C8_round_trip_witness :
    (cache_get ⟨true, true, true, true, true⟩ 100
      (cache_set ⟨true, true, true, true, true⟩ 100 ⟨true, 0, [], 0, 0, 0⟩ "stats:abc"
        (JVal.obj [("votes", JVal.int 42), ("zone", JVal.str "north")]) 60) "stats:abc").1 =
      JVal.obj [("votes", JVal.int 42), ("zone", JVal.str "north")] :=
  C8_round_trip ⟨true, true, true, true, true⟩ 100 ⟨true, 0, [], 0, 0, 0⟩ "stats:abc"
    (JVal.obj [("votes", JVal.int 42), ("zone", JVal.str "north")]) 60 rfl rfl rfl
    (by decide) (by rfl)

/-- C8, the claim as stated fails for non-primitive values: a `default=str`
fallback object (a date) written through `cache_set` is read back as the
JSON *string* of its `str()` form, which is not equal to the original
value. -/
theorem C8_nonprimitive_comes_back_as_string :
    (cache_get ⟨true, true, true, true, true⟩ 100
      (cache_set ⟨true, true, true, true, true⟩ 100 ⟨true, 0, [], 0, 0, 0⟩ "stats:day"
        (JVal.other "2024-01-01") 60) "stats:day").1 = JVal.str "2024-01-01" ∧
    JVal.str "2024-01-01" ≠ JVal.other "2024-01-01" :=
  ⟨rfl, fun h => JVal.noConfusion h⟩
